import Mathlib

/-!
Verification of the kafka-nodeTS transport core against its design
specification.

A Node.js `Buffer` is modelled as a `List Nat` of byte values (each value
below 256 for well-formed buffers).  The source's cursor-style reading
`decodeX(buffer, offset) -> [value, newOffset]` is modelled by consuming
bytes from the front of the remaining suffix: a decoder takes the
remaining bytes and returns the decoded value together with the bytes
after the consumed region.  A fixed-width read that would run past the
end of the buffer throws `ERR_OUT_OF_RANGE` in Node; this is modelled by
returning `none`.  `buffer.toString`/`slice` with an end index past the
buffer end silently clamp in Node; this is modelled by `List.take`/
`List.drop`, which clamp the same way.

JavaScript bitwise operators in the source are modelled arithmetically:
`x & 0x7F` is `x % 128`, `x >> 7` on a nonnegative number is `x / 128`,
`b | 0x80` for `b < 128` is `b + 128`, and `acc |= g << shift` where the
bits of `acc` lie strictly below `shift` is `acc + g * 2 ^ shift`.  These
agree with the 32-bit JavaScript semantics whenever the values involved
stay below 2^31, which the round-trip hypotheses guarantee.

IEEE-754 float32/float64 values are represented by their bit patterns
(a natural number below 2^32 resp. 2^64): `Buffer.writeFloatBE` /
`readFloatBE` store and load exactly those four (resp. eight) bytes.
-/

namespace Kafka

/-- Big-endian byte representation of `n` in exactly `w` bytes
(the low `8*w` bits of `n`, most significant byte first). -/
def natToBytesBE : Nat → Nat → List Nat
  | 0, _ => []
  | w + 1, n => natToBytesBE w (n / 256) ++ [n % 256]

/-- Big-endian interpretation of a byte list as a natural number. -/
def bytesToNatBE (l : List Nat) : Nat :=
  l.foldl (fun acc b => acc * 256 + b) 0

/-- Read `w` bytes from the front of `l` (big-endian unsigned value);
`none` when fewer than `w` bytes remain (Node throws `ERR_OUT_OF_RANGE`). -/
def readBytesBE (w : Nat) (l : List Nat) : Option (Nat × List Nat) :=
  if w ≤ l.length then some (bytesToNatBE (l.take w), l.drop w) else none

/-- Unsigned big-endian read, as performed by `Buffer.readUIntNBE`. -/
def decodeUIntBE (w : Nat) (l : List Nat) : Option (Nat × List Nat) :=
  readBytesBE w l

/-- Signed big-endian read (two's complement), as performed by
`Buffer.readIntNBE`. -/
def decodeIntBE (w : Nat) (l : List Nat) : Option (Int × List Nat) :=
  (readBytesBE w l).map fun p =>
    (if p.1 < 2 ^ (8 * w - 1) then (p.1 : Int) else (p.1 : Int) - 2 ^ (8 * w), p.2)

/-- Two's-complement big-endian write of a signed value in `w` bytes,
as performed by `Buffer.writeIntNBE`. -/
def intToBytesBE (w : Nat) (v : Int) : List Nat :=
  natToBytesBE w (v % ((2 : Int) ^ (8 * w))).toNat

/-- Unsigned LEB128 varint as written by the source's compact-length
loop: emit `len % 128 + 128` while `len > 127`, then the final group. -/
def encodeUVarint (n : Nat) : List Nat :=
  if 127 < n then (n % 128 + 128) :: encodeUVarint (n / 128) else [n]
termination_by n
decreasing_by exact Nat.div_lt_self (by omega) (by omega)

/-- The source's varint read loop
`do { b = readUInt8(); length |= (b & 0x7F) << shift; shift += 7 } while (b & 0x80)`
with the accumulator kept as `acc + group * mult` where `mult = 2 ^ shift`. -/
def decodeUVarintAux : List Nat → Nat → Nat → Option (Nat × List Nat)
  | [], _, _ => none
  | b :: r, mult, acc =>
    if 128 ≤ b then decodeUVarintAux r (mult * 128) (acc + b % 128 * mult)
    else some (acc + b % 128 * mult, r)

/-- Unsigned LEB128 varint read from the front of a byte list. -/
def decodeUVarint (l : List Nat) : Option (Nat × List Nat) :=
  decodeUVarintAux l 1 0

namespace BasicTypes

/-- `BasicTypes.encodeBoolean`: one byte, 1 for true and 0 for false. -/
def encodeBoolean (value : Bool) : List Nat :=
  [if value then 1 else 0]

/-- `BasicTypes.decodeBoolean`: reads one signed byte, true iff nonzero. -/
def decodeBoolean (l : List Nat) : Option (Bool × List Nat) :=
  (decodeIntBE 1 l).map fun p => (decide (p.1 ≠ 0), p.2)

/-- `BasicTypes.encodeInt8`. -/
def encodeInt8 (value : Int) : List Nat := intToBytesBE 1 value

/-- `BasicTypes.decodeInt8`. -/
def decodeInt8 (l : List Nat) : Option (Int × List Nat) := decodeIntBE 1 l

/-- `BasicTypes.encodeInt16` (big-endian). -/
def encodeInt16 (value : Int) : List Nat := intToBytesBE 2 value

/-- `BasicTypes.decodeInt16`. -/
def decodeInt16 (l : List Nat) : Option (Int × List Nat) := decodeIntBE 2 l

/-- `BasicTypes.encodeInt32` (big-endian). -/
def encodeInt32 (value : Int) : List Nat := intToBytesBE 4 value

/-- `BasicTypes.decodeInt32`. -/
def decodeInt32 (l : List Nat) : Option (Int × List Nat) := decodeIntBE 4 l

/-- `BasicTypes.encodeInt64` (big-endian, BigInt in the source). -/
def encodeInt64 (value : Int) : List Nat := intToBytesBE 8 value

/-- `BasicTypes.decodeInt64`. -/
def decodeInt64 (l : List Nat) : Option (Int × List Nat) := decodeIntBE 8 l

/-- `BasicTypes.encodeUInt8`. -/
def encodeUInt8 (value : Nat) : List Nat := natToBytesBE 1 value

/-- `BasicTypes.decodeUInt8`. -/
def decodeUInt8 (l : List Nat) : Option (Nat × List Nat) := decodeUIntBE 1 l

/-- `BasicTypes.encodeUInt16` (big-endian). -/
def encodeUInt16 (value : Nat) : List Nat := natToBytesBE 2 value

/-- `BasicTypes.decodeUInt16`. -/
def decodeUInt16 (l : List Nat) : Option (Nat × List Nat) := decodeUIntBE 2 l

/-- `BasicTypes.encodeUInt32` (big-endian). -/
def encodeUInt32 (value : Nat) : List Nat := natToBytesBE 4 value

/-- `BasicTypes.decodeUInt32`. -/
def decodeUInt32 (l : List Nat) : Option (Nat × List Nat) := decodeUIntBE 4 l

/-- `BasicTypes.encodeUInt64` (big-endian, BigInt in the source). -/
def encodeUInt64 (value : Nat) : List Nat := natToBytesBE 8 value

/-- `BasicTypes.decodeUInt64`. -/
def decodeUInt64 (l : List Nat) : Option (Nat × List Nat) := decodeUIntBE 8 l

/-- `BasicTypes.encodeFloat`: a float32 value, represented by its
IEEE-754 bit pattern (below 2^32), stored as four big-endian bytes. -/
def encodeFloat (bits : Nat) : List Nat := natToBytesBE 4 bits

/-- `BasicTypes.decodeFloat`: loads the four-byte IEEE-754 bit pattern. -/
def decodeFloat (l : List Nat) : Option (Nat × List Nat) := decodeUIntBE 4 l

/-- `BasicTypes.encodeDouble`: a float64 value by its bit pattern. -/
def encodeDouble (bits : Nat) : List Nat := natToBytesBE 8 bits

/-- `BasicTypes.decodeDouble`. -/
def decodeDouble (l : List Nat) : Option (Nat × List Nat) := decodeUIntBE 8 l

/-- `BasicTypes.encodeString`: nullable string (the string value is
modelled by its UTF-8 byte sequence); `null` is the int16 length -1,
otherwise an int16 byte length followed by the bytes. -/
def encodeString (value : Option (List Nat)) : List Nat :=
  match value with
  | none => [0xFF, 0xFF]
  | some s => intToBytesBE 2 s.length ++ s

/-- `BasicTypes.decodeString`: reads the int16 length; negative means
null; otherwise takes that many bytes (`buffer.toString` clamps at the
end of the buffer, hence `take`/`drop`, and the returned cursor moves by
the declared length even past the end, which in suffix form is the
exhausted rest). -/
def decodeString (l : List Nat) : Option (Option (List Nat) × List Nat) :=
  (decodeIntBE 2 l).map fun p =>
    if p.1 < 0 then (none, p.2)
    else (some (p.2.take p.1.toNat), p.2.drop p.1.toNat)

/-- `BasicTypes.encodeCompactString`: varint of `byteLength + 1`;
a single 0 byte denotes null. -/
def encodeCompactString (value : Option (List Nat)) : List Nat :=
  match value with
  | none => [0]
  | some s => encodeUVarint (s.length + 1) ++ s

/-- `BasicTypes.decodeCompactString`: reads the varint; 0 means null,
otherwise the value has `varint - 1` bytes. -/
def decodeCompactString (l : List Nat) : Option (Option (List Nat) × List Nat) :=
  (decodeUVarint l).bind fun p =>
    if p.1 = 0 then some (none, p.2)
    else some (some (p.2.take (p.1 - 1)), p.2.drop (p.1 - 1))

/-- `BasicTypes.encodeBytes`: nullable byte array, int32 length
(-1 for null) followed by the raw bytes. -/
def encodeBytes (value : Option (List Nat)) : List Nat :=
  match value with
  | none => [0xFF, 0xFF, 0xFF, 0xFF]
  | some v => intToBytesBE 4 v.length ++ v

/-- `BasicTypes.decodeBytes` (slice clamps like `toString`, see
`decodeString`). -/
def decodeBytes (l : List Nat) : Option (Option (List Nat) × List Nat) :=
  (decodeIntBE 4 l).map fun p =>
    if p.1 < 0 then (none, p.2)
    else (some (p.2.take p.1.toNat), p.2.drop p.1.toNat)

/-- `BasicTypes.encodeCompactBytes`. -/
def encodeCompactBytes (value : Option (List Nat)) : List Nat :=
  match value with
  | none => [0]
  | some v => encodeUVarint (v.length + 1) ++ v

/-- `BasicTypes.decodeCompactBytes`. -/
def decodeCompactBytes (l : List Nat) : Option (Option (List Nat) × List Nat) :=
  (decodeUVarint l).bind fun p =>
    if p.1 = 0 then some (none, p.2)
    else some (some (p.2.take (p.1 - 1)), p.2.drop (p.1 - 1))

/-- `BasicTypes.encodeArray`: int32 count (-1 for null) followed by the
concatenated element encodings. -/
def encodeArray (values : Option (List α)) (encodeFunc : α → List Nat) : List Nat :=
  match values with
  | none => [0xFF, 0xFF, 0xFF, 0xFF]
  | some vs => intToBytesBE 4 vs.length ++ (vs.map encodeFunc).flatten

/-- The element loop of `BasicTypes.decodeArray`: decode `count`
successive elements (the source pushes onto an array; building the list
head-first with the recursion is the same sequence of decodes). -/
def decodeArrayLoop (decodeFunc : List Nat → Option (α × List Nat)) :
    Nat → List Nat → Option (List α × List Nat)
  | 0, l => some ([], l)
  | k + 1, l =>
    (decodeFunc l).bind fun p =>
      (decodeArrayLoop decodeFunc k p.2).map fun q => (p.1 :: q.1, q.2)

/-- `BasicTypes.decodeArray`: int32 count, negative means null, else
`count` elements. -/
def decodeArray (decodeFunc : List Nat → Option (α × List Nat)) (l : List Nat) :
    Option (Option (List α) × List Nat) :=
  (decodeIntBE 4 l).bind fun p =>
    if p.1 < 0 then some (none, p.2)
    else (decodeArrayLoop decodeFunc p.1.toNat p.2).map fun q => (some q.1, q.2)

/-- `BasicTypes.encodeCompactArray`: varint of `count + 1` (0 for null)
followed by the concatenated element encodings. -/
def encodeCompactArray (values : Option (List α)) (encodeFunc : α → List Nat) : List Nat :=
  match values with
  | none => [0]
  | some vs => encodeUVarint (vs.length + 1) ++ (vs.map encodeFunc).flatten

/-- `BasicTypes.decodeCompactArray`. -/
def decodeCompactArray (decodeFunc : List Nat → Option (α × List Nat)) (l : List Nat) :
    Option (Option (List α) × List Nat) :=
  (decodeUVarint l).bind fun p =>
    if p.1 = 0 then some (none, p.2)
    else (decodeArrayLoop decodeFunc (p.1 - 1) p.2).map fun q => (some q.1, q.2)

end BasicTypes

namespace RequestHeader

/-- A decoded request header (`RequestHeader` in the source); the
`clientId` produced by `decode` is always a string, never null. -/
structure Header where
  apiKey : Int
  apiVersion : Int
  correlationId : Int
  clientId : List Nat
deriving DecidableEq

/-- `RequestHeader.encode`: apiKey (int16), apiVersion (int16),
correlationId (int32), then the nullable clientId.  The source tests
`this.clientId ? byteLength : -1`: under JavaScript truthiness the empty
string (and null) take the falsy branch and write the int16 null marker
-1. -/
def encode (apiKey apiVersion correlationId : Int) (clientId : Option (List Nat)) : List Nat :=
  intToBytesBE 2 apiKey ++ intToBytesBE 2 apiVersion ++ intToBytesBE 4 correlationId ++
    (match clientId with
     | some s => if s.isEmpty then intToBytesBE 2 (-1) else intToBytesBE 2 s.length ++ s
     | none => intToBytesBE 2 (-1))

/-- `RequestHeader.decode`: reads the four header fields; a negative
clientId length leaves the clientId as the initial empty string. -/
def decode (l : List Nat) : Option Header :=
  (decodeIntBE 2 l).bind fun pa =>
  (decodeIntBE 2 pa.2).bind fun pv =>
  (decodeIntBE 4 pv.2).bind fun pc =>
  (decodeIntBE 2 pc.2).map fun pl =>
    { apiKey := pa.1, apiVersion := pv.1, correlationId := pc.1,
      clientId := if (0 : Int) ≤ pl.1 then pl.2.take pl.1.toNat else [] }

end RequestHeader

namespace Cluster

/-- `PartitionMetadata` from `MetadataResponse`. -/
structure PartitionMetadata where
  errorCode : Int
  partitionIndex : Int
  leaderId : Int
  leaderEpoch : Int
  replicaNodes : List Int
  isrNodes : List Int
  offlineReplicas : List Int
deriving DecidableEq

/-- `TopicMetadata` from `MetadataResponse`. -/
structure TopicMetadata where
  errorCode : Int
  name : String
  isInternal : Bool
  partitions : List PartitionMetadata
  topicAuthorizedOperations : Int
deriving DecidableEq

/-- `Broker` from `MetadataResponse`. -/
structure Broker where
  nodeId : Int
  host : String
  port : Int
  rack : Option String
deriving DecidableEq

/-- The `ClusterMetadata` cache state.  The JS `Map`s are modelled by
their lookup functions, which is all `updateMetadata`, `findLeader` and
`getPartitionsForTopic` consult. -/
structure ClusterMetadata where
  topics : String → Option TopicMetadata
  brokers : Int → Option Broker
  clusterId : Option String
  controllerId : Int
  isMetadataInitialized : Bool

/-- A fresh `ClusterMetadata` as built by the constructor. -/
def emptyMetadata : ClusterMetadata :=
  ⟨fun _ => none, fun _ => none, none, -1, false⟩

/-- `Map.set`: point update of a lookup function. -/
def mapSet [DecidableEq κ] (m : κ → Option β) (k : κ) (v : β) : κ → Option β :=
  fun x => if x = k then some v else m x

/-- Comparison order used to canonicalise node-id lists.  The JS source
sorts with the default comparator (lexicographic on the string forms);
any fixed total order yields the same verdict when two sorted copies are
compared for equality, namely whether the two lists are permutations of
each other, so the numeric order is used here. -/
def intLE (a b : Int) : Bool := decide (a ≤ b)

/-- `ClusterMetadata.hasArrayChanged`: length mismatch, or the sorted
copies differ somewhere. -/
def hasArrayChanged (a b : List Int) : Bool :=
  a.length != b.length || a.mergeSort intLE != b.mergeSort intLE

/-- Lookup in the `existingMap` that `hasPartitionChanges` builds:
iterating `Map.set` over the list keeps the last entry per index. -/
def lookupPartitionLast (ps : List PartitionMetadata) (idx : Int) : Option PartitionMetadata :=
  ps.foldl (fun acc p => if p.partitionIndex = idx then some p else acc) none

/-- `ClusterMetadata.hasPartitionChanges`. -/
def hasPartitionChanges (existing updated : List PartitionMetadata) : Bool :=
  if existing.length != updated.length then true
  else updated.any fun p =>
    match lookupPartitionLast existing p.partitionIndex with
    | none => true
    | some q =>
      q.leaderId != p.leaderId || q.leaderEpoch != p.leaderEpoch ||
      hasArrayChanged q.replicaNodes p.replicaNodes ||
      hasArrayChanged q.isrNodes p.isrNodes ||
      hasArrayChanged q.offlineReplicas p.offlineReplicas

/-- The per-topic change test inside `updateMetadata`'s loop, against
the topics map as mutated so far. -/
def topicChanged (tm : String → Option TopicMetadata) (t : TopicMetadata) : Bool :=
  match tm t.name with
  | none => true
  | some existing =>
    existing.partitions.length != t.partitions.length ||
    hasPartitionChanges existing.partitions t.partitions

/-- One iteration of `updateMetadata`'s topic loop: skip a topic with a
nonzero error code; otherwise record its name if its metadata changed
(compared against the map as mutated so far) and store it. -/
def updateTopicsStep (acc : (String → Option TopicMetadata) × List String)
    (t : TopicMetadata) : (String → Option TopicMetadata) × List String :=
  if t.errorCode ≠ 0 then acc
  else (mapSet acc.1 t.name t,
        if topicChanged acc.1 t then acc.2 ++ [t.name] else acc.2)

/-- `ClusterMetadata.updateMetadata`: clears and refills the broker map,
then walks the response topics, skipping entries with a nonzero error
code, recording the names whose metadata changed, and finally decides
whether to emit the `update` event.  Returns (new state, updatedTopics,
whether `update` was emitted). -/
def updateMetadata (m : ClusterMetadata) (brokers : List Broker)
    (topics : List TopicMetadata) (clusterId : Option String) (controllerId : Int) :
    ClusterMetadata × List String × Bool :=
  let brokerMap := brokers.foldl (fun bm b => mapSet bm b.nodeId b) (fun _ => none)
  let r := topics.foldl updateTopicsStep (m.topics, [])
  (⟨r.1, brokerMap, clusterId, controllerId, true⟩,
   r.2,
   decide (r.2 ≠ []) || !m.isMetadataInitialized)

/-- Failure kinds of `findLeader`, one per distinct throw site: the
generic `KafkaError("Topic ... not found")`, the generic
`KafkaError("Partition ... not found")`, and `LeaderNotAvailableError`. -/
inductive KafkaFailure
  | topicNotFound
  | partitionNotFound
  | leaderNotAvailable
deriving DecidableEq

/-- `ClusterMetadata.findLeader`. -/
def findLeader (m : ClusterMetadata) (topic : String) (partition : Int) :
    Except KafkaFailure Int :=
  match m.topics topic with
  | none => .error .topicNotFound
  | some tm =>
    match tm.partitions.find? (fun p => p.partitionIndex == partition) with
    | none => .error .partitionNotFound
    | some p => if p.leaderId < 0 then .error .leaderNotAvailable else .ok p.leaderId

/-- `ClusterMetadata.getPartitionsForTopic`. -/
def getPartitionsForTopic (m : ClusterMetadata) (topic : String) : List PartitionMetadata :=
  match m.topics topic with
  | none => []
  | some tm => tm.partitions

/-- Modelled from the spec wording of claim C6: order-insensitive
comparison of two node-id lists "as sets" (equal membership). -/
def sameSet (a b : List Int) : Prop := ∀ x, x ∈ a ↔ x ∈ b

/-- Modelled from the spec wording of claim C6: a response partition
differs from the previous snapshot when there is no previous partition
with its index, or the leader id, leader epoch, or one of the
replica/ISR/offline sets differs. -/
def specPartitionDiffers (old : Option PartitionMetadata) (p : PartitionMetadata) : Prop :=
  match old with
  | none => True
  | some q =>
    q.leaderId ≠ p.leaderId ∨ q.leaderEpoch ≠ p.leaderEpoch ∨
    ¬ sameSet q.replicaNodes p.replicaNodes ∨
    ¬ sameSet q.isrNodes p.isrNodes ∨
    ¬ sameSet q.offlineReplicas p.offlineReplicas

/-- Modelled from the spec wording of claim C6: a topic changed when it
is newly seen, its partition count differs, or some partition differs
from the previous snapshot. -/
def specTopicChanged (old : Option TopicMetadata) (t : TopicMetadata) : Prop :=
  match old with
  | none => True
  | some ex =>
    ex.partitions.length ≠ t.partitions.length ∨
    ∃ p ∈ t.partitions, specPartitionDiffers (lookupPartitionLast ex.partitions p.partitionIndex) p

/-- Nodup side condition letting "equal as sets" and "equal as sorted
lists" coincide: no duplicate node ids in the three replica lists. -/
def partListsNodup (p : PartitionMetadata) : Prop :=
  p.replicaNodes.Nodup ∧ p.isrNodes.Nodup ∧ p.offlineReplicas.Nodup

end Cluster

namespace Connection

/-- The frame-peeling loop of `BrokerConnection.handleIncomingData`.
`fuel` only bounds the recursion; `buf.length + 1` always suffices
because every iteration advances `processed` by at least 4.  A negative
declared size sends the JS loop into a non-advancing erroneous path that
well-formed frames (declared size ≥ 0) never reach; the model stops
peeling there. -/
def processLoop : Nat → List Nat → Nat → List (List Nat) → List (List Nat) × Nat
  | 0, _, processed, acc => (acc, processed)
  | fuel + 1, buf, processed, acc =>
    if buf.length - processed < 4 then (acc, processed)
    else
      match decodeIntBE 4 (buf.drop processed) with
      | none => (acc, processed)
      | some (messageSize, _) =>
        if (buf.length : Int) - processed - 4 < messageSize then (acc, processed)
        else if messageSize < 0 then (acc, processed)
        else
          processLoop fuel buf (processed + 4 + messageSize.toNat)
            (acc ++ [(buf.drop (processed + 4)).take messageSize.toNat])

/-- `BrokerConnection.handleIncomingData`: append the new data to the
pending buffer, peel as many complete frames as possible, and keep any
unprocessed remainder.  Returns the peeled messages (each handed to
`handleResponse` in the source) and the new pending buffer. -/
def handleIncomingData (buffer : Option (List Nat)) (data : List Nat) :
    List (List Nat) × Option (List Nat) :=
  let b := match buffer with
    | some existing => existing ++ data
    | none => data
  let r := processLoop (b.length + 1) b 0 []
  (r.1,
   if r.2 = 0 then some b
   else if r.2 < b.length then some (b.drop r.2)
   else none)

/-- The bytes held in the pending buffer. -/
def bufBytes : Option (List Nat) → List Nat
  | none => []
  | some b => b

/-- Feed a sequence of data chunks to `handleIncomingData` one after the
other (successive socket `data` events), accumulating all peeled
messages. -/
def feed : Option (List Nat) → List (List Nat) → List (List Nat) × Option (List Nat)
  | st, [] => ([], st)
  | st, c :: rest =>
    let r := handleIncomingData st c
    let r2 := feed r.2 rest
    (r.1 ++ r2.1, r2.2)

/-- A complete response frame: 4-byte big-endian length prefix followed
by that many payload bytes. -/
def encodeFrame (payload : List Nat) : List Nat :=
  intToBytesBE 4 payload.length ++ payload

/-- The fields of an `InFlightRequest` consulted by the settlement
logic (`correlationId` is the table key). -/
structure InFlightRequest where
  sentTime : Int
  timeout : Int
deriving DecidableEq

/-- How an accepted send's promise settles. -/
inductive Outcome
  | resolved (body : List Nat)
  | rejectedTimeout
  | rejectedDisconnected
  | rejectedWriteError
deriving DecidableEq

/-- The connection's in-flight table together with the settlement state
of each request's promise (`none` = still pending; a JS promise settles
at most once, so later resolve/reject calls are no-ops). -/
structure ConnState where
  inFlight : Int → Option InFlightRequest
  promise : Int → Option Outcome

/-- Settle a promise: the first settlement wins, later ones are no-ops. -/
def settle : Option Outcome → Outcome → Option Outcome
  | none, o => some o
  | some x, _ => some x

/-- The events that can act on the in-flight table after a send was
accepted: a peeled response frame (`handleResponse`), a timeout-sweep
tick (`startRequestTimeoutTimer`'s interval), a socket write-error
callback for a given correlation id, and connection teardown
(`disconnect` / `onDisconnect`). -/
inductive ConnEvent
  | response (frame : List Nat)
  | sweep (now : Int)
  | writeError (cid : Int)
  | disconnect

/-- One event of `BrokerConnection` acting on the in-flight table.
`response`: decode the correlation id from the first four bytes (a
shorter frame makes `ResponseHeader.decode` throw, which `onError` turns
into a full teardown); an unmatched id is silently dropped; a matched id
is removed and resolved with the frame minus the 4-byte header.
`sweep`: every request older than its own timeout is removed and
rejected with `TimeoutError`.  `writeError`: the socket write callback
deletes the id and rejects with the raw socket error.  `disconnect`:
every in-flight request is rejected with `DisconnectedError` and the
table is cleared. -/
def step (s : ConnState) : ConnEvent → ConnState
  | .response frame =>
    match decodeIntBE 4 frame with
    | none =>
      ⟨fun _ => none,
       fun c => match s.inFlight c with
         | some _ => settle (s.promise c) .rejectedDisconnected
         | none => s.promise c⟩
    | some (cid, _) =>
      match s.inFlight cid with
      | none => s
      | some _ =>
        ⟨fun c => if c = cid then none else s.inFlight c,
         fun c => if c = cid then settle (s.promise c) (.resolved (frame.drop 4))
                  else s.promise c⟩
  | .sweep now =>
    ⟨fun c => match s.inFlight c with
       | some r => if r.timeout < now - r.sentTime then none else some r
       | none => none,
     fun c => match s.inFlight c with
       | some r => if r.timeout < now - r.sentTime then settle (s.promise c) .rejectedTimeout
                   else s.promise c
       | none => s.promise c⟩
  | .writeError cid =>
    ⟨fun c => if c = cid then none else s.inFlight c,
     fun c => if c = cid then settle (s.promise c) .rejectedWriteError else s.promise c⟩
  | .disconnect =>
    ⟨fun _ => none,
     fun c => match s.inFlight c with
       | some _ => settle (s.promise c) .rejectedDisconnected
       | none => s.promise c⟩

/-- Run a sequence of events. -/
def run (s : ConnState) (evs : List ConnEvent) : ConnState :=
  evs.foldl step s

end Connection

namespace NetworkClient

/-- Result of one awaited `connection.send`. -/
inductive SendErr
  | disconnected
  | other
deriving DecidableEq

/-- Result of one awaited `connection.send`. -/
inductive SendRes
  | ok (payload : List Nat)
  | err (e : SendErr)
deriving DecidableEq

/-- The environment of one `sendRequest` call.  `conn` is what
`connections.get(nodeId) && connection.isConnected()` currently reads;
it can only change across an await, so the script lists give, for each
successive awaited `refreshMetadata` and `connection.send`, the new
`conn` value observed afterwards (and the send's result). -/
structure World where
  conn : Bool
  refreshResults : List Bool
  sendResults : List (SendRes × Bool)
deriving DecidableEq

/-- Await one `refreshMetadata()`: consume the next scripted
post-refresh connection state (unchanged if the script is exhausted). -/
def doRefresh (w : World) : World :=
  match w.refreshResults with
  | [] => w
  | b :: rest => { w with conn := b, refreshResults := rest }

/-- Await one `connection.send(...)`: consume the next scripted result. -/
def doSend (w : World) : SendRes × World :=
  match w.sendResults with
  | [] => (SendRes.err .other, w)
  | (r, b) :: rest => (r, { w with conn := b, sendResults := rest })

/-- Outcome of a `sendRequest` call. -/
inductive ReqOutcome
  | success (payload : List Nat)
  | failDisconnected
  | failOther
deriving DecidableEq

/-- The `try`-block of `NetworkClient.sendRequest`, entered with a
connected pool entry: one `connection.send`; on a `DisconnectedError`
(if auto-refresh is on) one `refreshMetadata`, one connection re-check,
and one retry whose result — success or failure — is final.  The middle
component counts the `refreshMetadata` calls performed. -/
def sendBody (auto : Bool) (w : World) : ReqOutcome × Nat × World :=
  match doSend w with
  | (.ok p, w1) => (.success p, 0, w1)
  | (.err .other, w1) => (.failOther, 0, w1)
  | (.err .disconnected, w1) =>
    if auto then
      let w2 := doRefresh w1
      if w2.conn then
        match doSend w2 with
        | (.ok p, w3) => (.success p, 1, w3)
        | (.err .disconnected, w3) => (.failDisconnected, 1, w3)
        | (.err .other, w3) => (.failOther, 1, w3)
      else (.failDisconnected, 1, w2)
    else (.failDisconnected, 0, w1)

/-- `NetworkClient.sendRequest`.  When the pool has no connected entry
for the node: with auto-refresh off fail with `DisconnectedError`;
otherwise refresh once, re-check, and recurse.  The recursive call's
guard is true by construction (no await separates the re-check from the
recursion), so it is exactly `sendBody`; the source's recursion is
inlined accordingly. -/
def sendRequest (auto : Bool) (w : World) : ReqOutcome × Nat × World :=
  if w.conn then sendBody auto w
  else if auto then
    let w1 := doRefresh w
    if w1.conn then
      match sendBody auto w1 with
      | (o, k, w2) => (o, 1 + k, w2)
    else (.failDisconnected, 1, w1)
  else (.failDisconnected, 0, w)

/-- Outcome of a `sendToPartitionLeader` call. -/
inductive PLOutcome
  | success (payload : List Nat)
  | failDisconnected
  | failOther
  | failLookup (e : Cluster.KafkaFailure)
deriving DecidableEq

/-- Embed a delegate `sendRequest` outcome. -/
def liftOutcome : ReqOutcome → PLOutcome
  | .success p => .success p
  | .failDisconnected => .failDisconnected
  | .failOther => .failOther

/-- One synchronous `findLeaderForPartition` call: consume the next
scripted lookup result (the second lookup happens after the refresh, so
the cluster metadata may have changed). -/
def doLookup (ls : List (Except Cluster.KafkaFailure Int)) :
    Except Cluster.KafkaFailure Int × List (Except Cluster.KafkaFailure Int) :=
  match ls with
  | [] => (.error .topicNotFound, [])
  | x :: r => (x, r)

/-- `NetworkClient.sendToPartitionLeader`: look up the leader and
delegate to `sendRequest`; on ANY error from either (with auto-refresh
on) do one topic-scoped `refreshMetadata`, look up again, delegate
again, and surface whatever that second attempt produces.  The count is
the total number of `refreshMetadata` calls including those performed
inside the delegated `sendRequest` calls. -/
def sendToPartitionLeader (auto : Bool) (leaders : List (Except Cluster.KafkaFailure Int))
    (w : World) : PLOutcome × Nat :=
  match doLookup leaders with
  | (.error e, ls1) =>
    if auto then
      let w1 := doRefresh w
      match doLookup ls1 with
      | (.error e2, _) => (.failLookup e2, 1)
      | (.ok _, _) =>
        match sendRequest auto w1 with
        | (o, k, _) => (liftOutcome o, 1 + k)
    else (.failLookup e, 0)
  | (.ok _, ls1) =>
    match sendRequest auto w with
    | (.success p, k, _) => (.success p, k)
    | (o, k, w2) =>
      if auto then
        let w3 := doRefresh w2
        match doLookup ls1 with
        | (.error e2, _) => (.failLookup e2, k + 1)
        | (.ok _, _) =>
          match sendRequest auto w3 with
          | (o2, k2, _) => (liftOutcome o2, k + 1 + k2)
      else (liftOutcome o, k)

end NetworkClient

end Kafka

namespace Kafka

/-! Round-trip infrastructure for the byte-level primitives. -/

theorem natToBytesBE_length (w n : Nat) : (natToBytesBE w n).length = w := by
  induction w generalizing n with
  | zero => rfl
  | succ w ih => simp [natToBytesBE, ih]

theorem foldl_natToBytesBE (w : Nat) : ∀ n acc : Nat,
    (natToBytesBE w n).foldl (fun a b => a * 256 + b) acc = acc * 256 ^ w + n % 256 ^ w := by
  induction w with
  | zero => intro n acc; simp [natToBytesBE, Nat.mod_one]
  | succ w ih =>
    intro n acc
    rw [natToBytesBE, List.foldl_append, ih]
    simp only [List.foldl]
    have hm := @Nat.mod_mul 256 (256 ^ w) n
    have hpow : (256 : Nat) ^ (w + 1) = 256 * 256 ^ w := by ring
    rw [hpow, hm]
    ring

theorem bytesToNatBE_natToBytesBE (w n : Nat) :
    bytesToNatBE (natToBytesBE w n) = n % 256 ^ w := by
  simpa [bytesToNatBE] using foldl_natToBytesBE w n 0

theorem pow256_eq (w : Nat) : (256 : Nat) ^ w = 2 ^ (8 * w) := by
  rw [show (256 : Nat) = 2 ^ 8 from rfl, ← pow_mul]

theorem readBytesBE_append (w n : Nat) (rest : List Nat) :
    readBytesBE w (natToBytesBE w n ++ rest) = some (n % 2 ^ (8 * w), rest) := by
  have hlen : (natToBytesBE w n).length = w := natToBytesBE_length w n
  have ht := List.take_left (natToBytesBE w n) rest
  have hd := List.drop_left (natToBytesBE w n) rest
  rw [hlen] at ht hd
  rw [readBytesBE, if_pos (by simp [hlen]), ht, hd, bytesToNatBE_natToBytesBE, pow256_eq]

theorem decodeUIntBE_roundtrip (w n : Nat) (h : n < 2 ^ (8 * w)) (rest : List Nat) :
    decodeUIntBE w (natToBytesBE w n ++ rest) = some (n, rest) := by
  rw [decodeUIntBE, readBytesBE_append, Nat.mod_eq_of_lt h]

theorem decodeIntBE_roundtrip (w : Nat) (hw : 1 ≤ w) (v : Int)
    (hlo : -(2 ^ (8 * w - 1)) ≤ v) (hhi : v < 2 ^ (8 * w - 1)) (rest : List Nat) :
    decodeIntBE w (intToBytesBE w v ++ rest) = some (v, rest) := by
  have hMpos : (0 : Int) < 2 ^ (8 * w) := by positivity
  have h0 : 0 ≤ v % (2 : Int) ^ (8 * w) := Int.emod_nonneg v (by positivity)
  have h1 : v % (2 : Int) ^ (8 * w) < 2 ^ (8 * w) := Int.emod_lt_of_pos v hMpos
  set M : Int := 2 ^ (8 * w) with hMdef
  set P : Int := 2 ^ (8 * w - 1) with hPdef
  have hPM : M = 2 * P := by
    obtain ⟨k, hk⟩ : ∃ k, 8 * w = k + 1 := ⟨8 * w - 1, by omega⟩
    have hk2 : 8 * w - 1 = k := by omega
    rw [hMdef, hPdef, hk2, hk, pow_succ]; ring
  have hchar : v % M = v ∨ v % M = v + M := by
    rcases le_or_lt 0 v with hv | hv
    · left
      exact Int.emod_eq_of_lt hv (by omega)
    · right
      have hshift : v % M = (v + M * 1) % M := by rw [Int.add_mul_emod_self_left]
      rw [hshift, mul_one]
      exact Int.emod_eq_of_lt (by omega) (by omega)
  set m : Nat := (v % M).toNat with hmdef
  have htn : ((m : Nat) : Int) = v % M := Int.toNat_of_nonneg h0
  have hcastM : (((2 : Nat) ^ (8 * w) : Nat) : Int) = M := by rw [hMdef]; push_cast; ring
  have hcastP : (((2 : Nat) ^ (8 * w - 1) : Nat) : Int) = P := by rw [hPdef]; push_cast; ring
  have hmlt : m < 2 ^ (8 * w) := by omega
  have hmod : m % 2 ^ (8 * w) = m := Nat.mod_eq_of_lt hmlt
  have hval : (if m < 2 ^ (8 * w - 1) then ((m : Nat) : Int) else ((m : Nat) : Int) - M) = v := by
    rcases hchar with hc | hc <;> split <;> rename_i hcond <;> omega
  rw [intToBytesBE, decodeIntBE, ← hMdef, ← hmdef, readBytesBE_append]
  simp only [Option.map_some', hmod, hval]

/-! Round trips of the LEB128 varint. -/

theorem decodeUVarintAux_encode (n : Nat) : ∀ (rest : List Nat) (mult acc : Nat),
    decodeUVarintAux (encodeUVarint n ++ rest) mult acc = some (acc + n * mult, rest) := by
  induction n using Nat.strong_induction_on with
  | _ n ih =>
    intro rest mult acc
    rw [encodeUVarint]
    split
    · next h =>
      rw [List.cons_append, decodeUVarintAux]
      rw [if_pos (by omega)]
      rw [ih (n / 128) (Nat.div_lt_self (by omega) (by omega)) rest (mult * 128)]
      congr 2
      have hmod : (n % 128 + 128) % 128 = n % 128 := by omega
      have hdm : 128 * (n / 128) + n % 128 = n := Nat.div_add_mod n 128
      rw [hmod]
      calc acc + n % 128 * mult + n / 128 * (mult * 128)
          = acc + (128 * (n / 128) + n % 128) * mult := by ring
        _ = acc + n * mult := by rw [hdm]
    · next h =>
      rw [List.cons_append, decodeUVarintAux]
      rw [if_neg (by omega)]
      congr 2
      have : n % 128 = n := Nat.mod_eq_of_lt (by omega)
      rw [this]

theorem decodeUVarint_encode (n : Nat) (rest : List Nat) :
    decodeUVarint (encodeUVarint n ++ rest) = some (n, rest) := by
  simpa [decodeUVarint] using decodeUVarintAux_encode n rest 1 0

theorem encodeUVarint_zero : encodeUVarint 0 = [0] := by
  rw [encodeUVarint]; norm_num

/-! Round trips of the composite BasicTypes codecs. -/

namespace BasicTypes

theorem decodeBoolean_encodeBoolean (b : Bool) (rest : List Nat) :
    decodeBoolean (encodeBoolean b ++ rest) = some (b, rest) := by
  cases b
  · have h : encodeBoolean false = intToBytesBE 1 0 := by decide
    rw [h, decodeBoolean, decodeIntBE_roundtrip 1 (by norm_num) 0 (by norm_num) (by norm_num)]
    simp
  · have h : encodeBoolean true = intToBytesBE 1 1 := by decide
    rw [h, decodeBoolean, decodeIntBE_roundtrip 1 (by norm_num) 1 (by norm_num) (by norm_num)]
    simp

theorem decodeString_encodeString_none (rest : List Nat) :
    decodeString (encodeString none ++ rest) = some (none, rest) := by
  have h : encodeString none = intToBytesBE 2 (-1) := by decide
  rw [h, decodeString, decodeIntBE_roundtrip 2 (by norm_num) (-1) (by norm_num) (by norm_num)]
  norm_num

theorem decodeString_encodeString_some (s rest : List Nat) (h : s.length ≤ 32767) :
    decodeString (encodeString (some s) ++ rest) = some (some s, rest) := by
  rw [encodeString, List.append_assoc, decodeString,
      decodeIntBE_roundtrip 2 (by norm_num) (s.length : Int)
        (by exact le_trans (by norm_num) (Int.natCast_nonneg _)) (by exact_mod_cast by omega) _]
  have hneg : ¬ ((s.length : Int) < 0) := by exact_mod_cast by omega
  simp only [Option.map_some', if_neg hneg, Int.toNat_natCast, List.take_left, List.drop_left]

theorem decodeBytes_encodeBytes_none (rest : List Nat) :
    decodeBytes (encodeBytes none ++ rest) = some (none, rest) := by
  have h : encodeBytes none = intToBytesBE 4 (-1) := by decide
  rw [h, decodeBytes, decodeIntBE_roundtrip 4 (by norm_num) (-1) (by norm_num) (by norm_num)]
  norm_num

theorem decodeBytes_encodeBytes_some (s rest : List Nat) (h : s.length < 2 ^ 31) :
    decodeBytes (encodeBytes (some s) ++ rest) = some (some s, rest) := by
  rw [encodeBytes, List.append_assoc, decodeBytes,
      decodeIntBE_roundtrip 4 (by norm_num) (s.length : Int)
        (by exact le_trans (by norm_num) (Int.natCast_nonneg _)) (by exact_mod_cast by omega) _]
  have hneg : ¬ ((s.length : Int) < 0) := by exact_mod_cast by omega
  simp only [Option.map_some', if_neg hneg, Int.toNat_natCast, List.take_left, List.drop_left]

theorem decodeCompactString_encodeCompactString_none (rest : List Nat) :
    decodeCompactString (encodeCompactString none ++ rest) = some (none, rest) := by
  have h : encodeCompactString (none : Option (List Nat)) = encodeUVarint 0 := by
    rw [encodeUVarint_zero]; rfl
  rw [h, decodeCompactString, decodeUVarint_encode]
  simp

theorem decodeCompactString_encodeCompactString_some (s rest : List Nat) :
    decodeCompactString (encodeCompactString (some s) ++ rest) = some (some s, rest) := by
  rw [encodeCompactString, List.append_assoc, decodeCompactString, decodeUVarint_encode]
  simp [List.take_left, List.drop_left]

theorem decodeCompactBytes_encodeCompactBytes_none (rest : List Nat) :
    decodeCompactBytes (encodeCompactBytes none ++ rest) = some (none, rest) := by
  have h : encodeCompactBytes (none : Option (List Nat)) = encodeUVarint 0 := by
    rw [encodeUVarint_zero]; rfl
  rw [h, decodeCompactBytes, decodeUVarint_encode]
  simp

theorem decodeCompactBytes_encodeCompactBytes_some (s rest : List Nat) :
    decodeCompactBytes (encodeCompactBytes (some s) ++ rest) = some (some s, rest) := by
  rw [encodeCompactBytes, List.append_assoc, decodeCompactBytes, decodeUVarint_encode]
  simp [List.take_left, List.drop_left]

theorem decodeArrayLoop_roundtrip {α : Type} (encodeFunc : α → List Nat)
    (decodeFunc : List Nat → Option (α × List Nat)) (vs : List α) (rest : List Nat)
    (H : ∀ x ∈ vs, ∀ r, decodeFunc (encodeFunc x ++ r) = some (x, r)) :
    decodeArrayLoop decodeFunc vs.length ((vs.map encodeFunc).flatten ++ rest) =
      some (vs, rest) := by
  induction vs with
  | nil => simp [decodeArrayLoop]
  | cons x xs ih =>
    rw [List.length_cons, List.map_cons, List.flatten_cons, List.append_assoc,
        decodeArrayLoop, H x (by simp)]
    simp only [Option.some_bind]
    rw [ih (fun y hy r => H y (by simp [hy]) r)]
    rfl

theorem decodeArray_encodeArray_none {α : Type} (encodeFunc : α → List Nat)
    (decodeFunc : List Nat → Option (α × List Nat)) (rest : List Nat) :
    decodeArray decodeFunc (encodeArray (none : Option (List α)) encodeFunc ++ rest) =
      some (none, rest) := by
  have h : encodeArray (none : Option (List α)) encodeFunc = intToBytesBE 4 (-1) := by
    rw [encodeArray]; decide
  rw [h, decodeArray, decodeIntBE_roundtrip 4 (by norm_num) (-1) (by norm_num) (by norm_num)]
  norm_num

theorem decodeArray_encodeArray_some {α : Type} (encodeFunc : α → List Nat)
    (decodeFunc : List Nat → Option (α × List Nat)) (vs : List α) (rest : List Nat)
    (hn : vs.length < 2 ^ 31)
    (H : ∀ x ∈ vs, ∀ r, decodeFunc (encodeFunc x ++ r) = some (x, r)) :
    decodeArray decodeFunc (encodeArray (some vs) encodeFunc ++ rest) =
      some (some vs, rest) := by
  rw [encodeArray, List.append_assoc, decodeArray,
      decodeIntBE_roundtrip 4 (by norm_num) (vs.length : Int)
        (by exact le_trans (by norm_num) (Int.natCast_nonneg _)) (by exact_mod_cast by omega) _]
  have hneg : ¬ ((vs.length : Int) < 0) := by exact_mod_cast by omega
  simp only [Option.some_bind, if_neg hneg, Int.toNat_natCast]
  rw [decodeArrayLoop_roundtrip encodeFunc decodeFunc vs rest H]
  rfl

theorem decodeCompactArray_encodeCompactArray_none {α : Type} (encodeFunc : α → List Nat)
    (decodeFunc : List Nat → Option (α × List Nat)) (rest : List Nat) :
    decodeCompactArray decodeFunc
        (encodeCompactArray (none : Option (List α)) encodeFunc ++ rest) =
      some (none, rest) := by
  have h : encodeCompactArray (none : Option (List α)) encodeFunc = encodeUVarint 0 := by
    rw [encodeCompactArray, encodeUVarint_zero]
  rw [h, decodeCompactArray, decodeUVarint_encode]
  simp

theorem decodeCompactArray_encodeCompactArray_some {α : Type} (encodeFunc : α → List Nat)
    (decodeFunc : List Nat → Option (α × List Nat)) (vs : List α) (rest : List Nat)
    (H : ∀ x ∈ vs, ∀ r, decodeFunc (encodeFunc x ++ r) = some (x, r)) :
    decodeCompactArray decodeFunc (encodeCompactArray (some vs) encodeFunc ++ rest) =
      some (some vs, rest) := by
  rw [encodeCompactArray, List.append_assoc, decodeCompactArray, decodeUVarint_encode]
  simp only [Option.some_bind, Nat.add_sub_cancel, Nat.succ_ne_zero, if_false]
  rw [decodeArrayLoop_roundtrip encodeFunc decodeFunc vs rest H]
  rfl

/-! Width-specialised wrappers with the numeric ranges spelled out. -/

theorem decodeInt8_encodeInt8 (v : Int) (rest : List Nat)
    (h1 : -(2 ^ 7) ≤ v) (h2 : v < 2 ^ 7) :
    decodeInt8 (encodeInt8 v ++ rest) = some (v, rest) := by
  exact decodeIntBE_roundtrip 1 (by norm_num) v (by norm_num; norm_num at h1; exact h1)
    (by norm_num; norm_num at h2; exact h2) rest

theorem decodeInt16_encodeInt16 (v : Int) (rest : List Nat)
    (h1 : -(2 ^ 15) ≤ v) (h2 : v < 2 ^ 15) :
    decodeInt16 (encodeInt16 v ++ rest) = some (v, rest) := by
  exact decodeIntBE_roundtrip 2 (by norm_num) v (by norm_num; norm_num at h1; exact h1)
    (by norm_num; norm_num at h2; exact h2) rest

theorem decodeInt32_encodeInt32 (v : Int) (rest : List Nat)
    (h1 : -(2 ^ 31) ≤ v) (h2 : v < 2 ^ 31) :
    decodeInt32 (encodeInt32 v ++ rest) = some (v, rest) := by
  exact decodeIntBE_roundtrip 4 (by norm_num) v (by norm_num; norm_num at h1; exact h1)
    (by norm_num; norm_num at h2; exact h2) rest

theorem decodeInt64_encodeInt64 (v : Int) (rest : List Nat)
    (h1 : -(2 ^ 63) ≤ v) (h2 : v < 2 ^ 63) :
    decodeInt64 (encodeInt64 v ++ rest) = some (v, rest) := by
  exact decodeIntBE_roundtrip 8 (by norm_num) v (by norm_num; norm_num at h1; exact h1)
    (by norm_num; norm_num at h2; exact h2) rest

theorem decodeUInt8_encodeUInt8 (n : Nat) (rest : List Nat) (h : n < 2 ^ 8) :
    decodeUInt8 (encodeUInt8 n ++ rest) = some (n, rest) := by
  exact decodeUIntBE_roundtrip 1 n (by norm_num; norm_num at h; exact h) rest

theorem decodeUInt16_encodeUInt16 (n : Nat) (rest : List Nat) (h : n < 2 ^ 16) :
    decodeUInt16 (encodeUInt16 n ++ rest) = some (n, rest) := by
  exact decodeUIntBE_roundtrip 2 n (by norm_num; norm_num at h; exact h) rest

theorem decodeUInt32_encodeUInt32 (n : Nat) (rest : List Nat) (h : n < 2 ^ 32) :
    decodeUInt32 (encodeUInt32 n ++ rest) = some (n, rest) := by
  exact decodeUIntBE_roundtrip 4 n (by norm_num; norm_num at h; exact h) rest

theorem decodeUInt64_encodeUInt64 (n : Nat) (rest : List Nat) (h : n < 2 ^ 64) :
    decodeUInt64 (encodeUInt64 n ++ rest) = some (n, rest) := by
  exact decodeUIntBE_roundtrip 8 n (by norm_num; norm_num at h; exact h) rest

theorem decodeFloat_encodeFloat (bits : Nat) (rest : List Nat) (h : bits < 2 ^ 32) :
    decodeFloat (encodeFloat bits ++ rest) = some (bits, rest) := by
  exact decodeUIntBE_roundtrip 4 bits (by norm_num; norm_num at h; exact h) rest

theorem decodeDouble_encodeDouble (bits : Nat) (rest : List Nat) (h : bits < 2 ^ 64) :
    decodeDouble (encodeDouble bits ++ rest) = some (bits, rest) := by
  exact decodeUIntBE_roundtrip 8 bits (by norm_num; norm_num at h; exact h) rest

end BasicTypes

end Kafka

namespace Kafka

/-- C1: Codec round-trip.  For every supported primitive value (fixed-width
signed and unsigned integers at 8/16/32/64 bits within their ranges,
float32/float64 represented by their IEEE-754 bit patterns, booleans),
every nullable string and nullable byte array (including the null value
and the empty value), and every standard and compact array (including
null and empty, and in particular the lengths 127, 128 and 16384 that
exercise multi-byte varint length prefixes), decoding the encoding of the
value — with arbitrary trailing bytes — yields exactly the original value
and consumes exactly the encoding. -/
theorem C1_codec_roundtrip :
    (∀ (b : Bool) (rest : List Nat),
      BasicTypes.decodeBoolean (BasicTypes.encodeBoolean b ++ rest) = some (b, rest)) ∧
    (∀ (v : Int) (rest : List Nat), -(2 ^ 7) ≤ v → v < 2 ^ 7 →
      BasicTypes.decodeInt8 (BasicTypes.encodeInt8 v ++ rest) = some (v, rest)) ∧
    (∀ (v : Int) (rest : List Nat), -(2 ^ 15) ≤ v → v < 2 ^ 15 →
      BasicTypes.decodeInt16 (BasicTypes.encodeInt16 v ++ rest) = some (v, rest)) ∧
    (∀ (v : Int) (rest : List Nat), -(2 ^ 31) ≤ v → v < 2 ^ 31 →
      BasicTypes.decodeInt32 (BasicTypes.encodeInt32 v ++ rest) = some (v, rest)) ∧
    (∀ (v : Int) (rest : List Nat), -(2 ^ 63) ≤ v → v < 2 ^ 63 →
      BasicTypes.decodeInt64 (BasicTypes.encodeInt64 v ++ rest) = some (v, rest)) ∧
    (∀ (n : Nat) (rest : List Nat), n < 2 ^ 8 →
      BasicTypes.decodeUInt8 (BasicTypes.encodeUInt8 n ++ rest) = some (n, rest)) ∧
    (∀ (n : Nat) (rest : List Nat), n < 2 ^ 16 →
      BasicTypes.decodeUInt16 (BasicTypes.encodeUInt16 n ++ rest) = some (n, rest)) ∧
    (∀ (n : Nat) (rest : List Nat), n < 2 ^ 32 →
      BasicTypes.decodeUInt32 (BasicTypes.encodeUInt32 n ++ rest) = some (n, rest)) ∧
    (∀ (n : Nat) (rest : List Nat), n < 2 ^ 64 →
      BasicTypes.decodeUInt64 (BasicTypes.encodeUInt64 n ++ rest) = some (n, rest)) ∧
    (∀ (bits : Nat) (rest : List Nat), bits < 2 ^ 32 →
      BasicTypes.decodeFloat (BasicTypes.encodeFloat bits ++ rest) = some (bits, rest)) ∧
    (∀ (bits : Nat) (rest : List Nat), bits < 2 ^ 64 →
      BasicTypes.decodeDouble (BasicTypes.encodeDouble bits ++ rest) = some (bits, rest)) ∧
    (∀ rest : List Nat,
      BasicTypes.decodeString (BasicTypes.encodeString none ++ rest) = some (none, rest)) ∧
    (∀ (s rest : List Nat), s.length ≤ 32767 →
      BasicTypes.decodeString (BasicTypes.encodeString (some s) ++ rest) = some (some s, rest)) ∧
    (∀ rest : List Nat,
      BasicTypes.decodeBytes (BasicTypes.encodeBytes none ++ rest) = some (none, rest)) ∧
    (∀ (s rest : List Nat), s.length < 2 ^ 31 →
      BasicTypes.decodeBytes (BasicTypes.encodeBytes (some s) ++ rest) = some (some s, rest)) ∧
    (∀ rest : List Nat,
      BasicTypes.decodeCompactString (BasicTypes.encodeCompactString none ++ rest) =
        some (none, rest)) ∧
    (∀ (s rest : List Nat), s.length + 1 < 2 ^ 31 →
      BasicTypes.decodeCompactString (BasicTypes.encodeCompactString (some s) ++ rest) =
        some (some s, rest)) ∧
    (∀ rest : List Nat,
      BasicTypes.decodeCompactBytes (BasicTypes.encodeCompactBytes none ++ rest) =
        some (none, rest)) ∧
    (∀ (s rest : List Nat), s.length + 1 < 2 ^ 31 →
      BasicTypes.decodeCompactBytes (BasicTypes.encodeCompactBytes (some s) ++ rest) =
        some (some s, rest)) ∧
    (∀ (α : Type) (encodeFunc : α → List Nat) (decodeFunc : List Nat → Option (α × List Nat))
        (rest : List Nat),
      BasicTypes.decodeArray decodeFunc
          (BasicTypes.encodeArray (none : Option (List α)) encodeFunc ++ rest) =
        some (none, rest)) ∧
    (∀ (α : Type) (encodeFunc : α → List Nat) (decodeFunc : List Nat → Option (α × List Nat))
        (vs : List α) (rest : List Nat), vs.length < 2 ^ 31 →
      (∀ x ∈ vs, ∀ r, decodeFunc (encodeFunc x ++ r) = some (x, r)) →
      BasicTypes.decodeArray decodeFunc
          (BasicTypes.encodeArray (some vs) encodeFunc ++ rest) =
        some (some vs, rest)) ∧
    (∀ (α : Type) (encodeFunc : α → List Nat) (decodeFunc : List Nat → Option (α × List Nat))
        (rest : List Nat),
      BasicTypes.decodeCompactArray decodeFunc
          (BasicTypes.encodeCompactArray (none : Option (List α)) encodeFunc ++ rest) =
        some (none, rest)) ∧
    (∀ (α : Type) (encodeFunc : α → List Nat) (decodeFunc : List Nat → Option (α × List Nat))
        (vs : List α) (rest : List Nat), vs.length + 1 < 2 ^ 31 →
      (∀ x ∈ vs, ∀ r, decodeFunc (encodeFunc x ++ r) = some (x, r)) →
      BasicTypes.decodeCompactArray decodeFunc
          (BasicTypes.encodeCompactArray (some vs) encodeFunc ++ rest) =
        some (some vs, rest)) ∧
    (∀ (x : Int) (rest : List Nat), -(2 ^ 7) ≤ x → x < 2 ^ 7 →
      (∀ k ∈ ([127, 128, 16384] : List Nat),
        BasicTypes.decodeArray BasicTypes.decodeInt8
            (BasicTypes.encodeArray (some (List.replicate k x)) BasicTypes.encodeInt8 ++ rest) =
          some (some (List.replicate k x), rest) ∧
        BasicTypes.decodeCompactArray BasicTypes.decodeInt8
            (BasicTypes.encodeCompactArray (some (List.replicate k x))
              BasicTypes.encodeInt8 ++ rest) =
          some (some (List.replicate k x), rest))) := by
  have helem : ∀ (x : Int), -(2 ^ 7) ≤ x → x < 2 ^ 7 → ∀ (k : Nat),
      ∀ y ∈ List.replicate k x, ∀ r,
        BasicTypes.decodeInt8 (BasicTypes.encodeInt8 y ++ r) = some (y, r) := by
    intro x h1 h2 k y hy r
    rw [List.eq_of_mem_replicate hy]
    exact BasicTypes.decodeInt8_encodeInt8 x r h1 h2
  refine ⟨BasicTypes.decodeBoolean_encodeBoolean,
    fun v rest h1 h2 => BasicTypes.decodeInt8_encodeInt8 v rest h1 h2,
    fun v rest h1 h2 => BasicTypes.decodeInt16_encodeInt16 v rest h1 h2,
    fun v rest h1 h2 => BasicTypes.decodeInt32_encodeInt32 v rest h1 h2,
    fun v rest h1 h2 => BasicTypes.decodeInt64_encodeInt64 v rest h1 h2,
    fun n rest h => BasicTypes.decodeUInt8_encodeUInt8 n rest h,
    fun n rest h => BasicTypes.decodeUInt16_encodeUInt16 n rest h,
    fun n rest h => BasicTypes.decodeUInt32_encodeUInt32 n rest h,
    fun n rest h => BasicTypes.decodeUInt64_encodeUInt64 n rest h,
    fun bits rest h => BasicTypes.decodeFloat_encodeFloat bits rest h,
    fun bits rest h => BasicTypes.decodeDouble_encodeDouble bits rest h,
    BasicTypes.decodeString_encodeString_none,
    fun s rest h => BasicTypes.decodeString_encodeString_some s rest h,
    BasicTypes.decodeBytes_encodeBytes_none,
    fun s rest h => BasicTypes.decodeBytes_encodeBytes_some s rest h,
    BasicTypes.decodeCompactString_encodeCompactString_none,
    fun s rest _ => BasicTypes.decodeCompactString_encodeCompactString_some s rest,
    BasicTypes.decodeCompactBytes_encodeCompactBytes_none,
    fun s rest _ => BasicTypes.decodeCompactBytes_encodeCompactBytes_some s rest,
    fun α enc dec rest => BasicTypes.decodeArray_encodeArray_none enc dec rest,
    fun α enc dec vs rest hn H => BasicTypes.decodeArray_encodeArray_some enc dec vs rest hn H,
    fun α enc dec rest => BasicTypes.decodeCompactArray_encodeCompactArray_none enc dec rest,
    fun α enc dec vs rest _ H =>
      BasicTypes.decodeCompactArray_encodeCompactArray_some enc dec vs rest H,
    ?_⟩
  intro x rest h1 h2 k hk
  refine ⟨BasicTypes.decodeArray_encodeArray_some _ _ _ rest ?_ (helem x h1 h2 k), 
    BasicTypes.decodeCompactArray_encodeCompactArray_some _ _ _ rest (helem x h1 h2 k)⟩
  rw [List.length_replicate]
  fin_cases hk <;> norm_num

/-- Witness for C1 at a concrete input: the int16 round trip at
value 300 with trailing byte 7. -/
theorem C1_codec_roundtrip_witness :
    ((-(2 ^ 15) : Int) ≤ 300 ∧ (300 : Int) < 2 ^ 15) ∧
      BasicTypes.decodeInt16 (BasicTypes.encodeInt16 300 ++ [7]) = some (300, [7]) :=
  ⟨⟨by norm_num, by norm_num⟩,
   C1_codec_roundtrip.2.2.1 300 [7] (by norm_num) (by norm_num)⟩

/-- C9: the codec does NOT detect truncated input.  `decodeString` on the
two-byte buffer `[0x00, 0x05]` (declared length 5, zero payload bytes)
silently succeeds with the clamped empty string instead of failing with a
`TRUNCATED_MESSAGE` error, and `decodeBytes` on `[0,0,0,5,1,2]` (declared
length 5, two payload bytes) silently succeeds with the two available
bytes.  This is evidence for the claim's failure on the code. -/
theorem C9_truncation_not_detected :
    BasicTypes.decodeString [0, 5] = some (some [], []) ∧
    BasicTypes.decodeBytes [0, 0, 0, 5, 1, 2] = some (some [1, 2], []) := by
  constructor <;> rfl

end Kafka

namespace Kafka

theorem requestHeader_decode_fields (k a c : Int)
    (hk1 : -(2 ^ 15) ≤ k) (hk2 : k < 2 ^ 15)
    (ha1 : -(2 ^ 15) ≤ a) (ha2 : a < 2 ^ 15)
    (hc1 : -(2 ^ 31) ≤ c) (hc2 : c < 2 ^ 31) (tail : List Nat) :
    RequestHeader.decode
        (intToBytesBE 2 k ++ (intToBytesBE 2 a ++ (intToBytesBE 4 c ++ tail))) =
      (decodeIntBE 2 tail).map fun pl =>
        { apiKey := k, apiVersion := a, correlationId := c,
          clientId := if (0 : Int) ≤ pl.1 then pl.2.take pl.1.toNat else [] } := by
  rw [RequestHeader.decode,
      decodeIntBE_roundtrip 2 (by norm_num) k (by norm_num; norm_num at hk1; exact hk1)
        (by norm_num; norm_num at hk2; exact hk2)]
  simp only [Option.some_bind]
  rw [decodeIntBE_roundtrip 2 (by norm_num) a (by norm_num; norm_num at ha1; exact ha1)
        (by norm_num; norm_num at ha2; exact ha2)]
  simp only [Option.some_bind]
  rw [decodeIntBE_roundtrip 4 (by norm_num) c (by norm_num; norm_num at hc1; exact hc1)
        (by norm_num; norm_num at hc2; exact hc2)]
  simp only [Option.some_bind]

/-- C10: Request-header clientId null/empty collapse.  (a) a wire-level
null clientId (int16 length -1) decodes to the empty string, so `decode`
never produces a null clientId; (b) `encode` writes the null marker
(int16 -1) for the empty clientId — identically to a null clientId —
instead of writing length 0; (c) consequently `decode (encode h)` returns
the original clientId for non-empty strings and the empty string when the
original was empty or null, making null and empty indistinguishable
through the header codec. -/
theorem C10_clientId_null_empty_collapse :
    (∀ k a c : Int, -(2 ^ 15) ≤ k → k < 2 ^ 15 → -(2 ^ 15) ≤ a → a < 2 ^ 15 →
      -(2 ^ 31) ≤ c → c < 2 ^ 31 →
      RequestHeader.decode
          (intToBytesBE 2 k ++ intToBytesBE 2 a ++ intToBytesBE 4 c ++ intToBytesBE 2 (-1)) =
        some { apiKey := k, apiVersion := a, correlationId := c, clientId := [] }) ∧
    (∀ k a c : Int,
      RequestHeader.encode k a c (some []) = RequestHeader.encode k a c none ∧
      RequestHeader.encode k a c none =
        intToBytesBE 2 k ++ intToBytesBE 2 a ++ intToBytesBE 4 c ++ intToBytesBE 2 (-1)) ∧
    (∀ (k a c : Int) (cid : Option (List Nat)), -(2 ^ 15) ≤ k → k < 2 ^ 15 →
      -(2 ^ 15) ≤ a → a < 2 ^ 15 → -(2 ^ 31) ≤ c → c < 2 ^ 31 →
      (∀ s, cid = some s → s.length ≤ 32767) →
      RequestHeader.decode (RequestHeader.encode k a c cid) =
        some { apiKey := k, apiVersion := a, correlationId := c, clientId := cid.getD [] }) := by
  have hnull : ∀ k a c : Int, -(2 ^ 15) ≤ k → k < 2 ^ 15 → -(2 ^ 15) ≤ a → a < 2 ^ 15 →
      -(2 ^ 31) ≤ c → c < 2 ^ 31 →
      RequestHeader.decode
          (intToBytesBE 2 k ++ intToBytesBE 2 a ++ intToBytesBE 4 c ++ intToBytesBE 2 (-1)) =
        some { apiKey := k, apiVersion := a, correlationId := c, clientId := [] } := by
    intro k a c hk1 hk2 ha1 ha2 hc1 hc2
    rw [List.append_assoc, List.append_assoc,
        requestHeader_decode_fields k a c hk1 hk2 ha1 ha2 hc1 hc2]
    have hread : decodeIntBE 2 (intToBytesBE 2 (-1)) = some (-1, []) := by
      have := decodeIntBE_roundtrip 2 (by norm_num) (-1) (by norm_num) (by norm_num) []
      simpa using this
    rw [hread]
    norm_num
  refine ⟨hnull, fun k a c => ⟨rfl, rfl⟩, ?_⟩
  intro k a c cid hk1 hk2 ha1 ha2 hc1 hc2 hlen
  match cid with
  | none => exact hnull k a c hk1 hk2 ha1 ha2 hc1 hc2
  | some [] => exact hnull k a c hk1 hk2 ha1 ha2 hc1 hc2
  | some (b :: s) =>
    have hl := hlen (b :: s) rfl
    rw [RequestHeader.encode]
    simp only [List.isEmpty_cons]
    rw [if_neg (show ¬ (false = true) by simp), List.append_assoc, List.append_assoc,
        requestHeader_decode_fields k a c hk1 hk2 ha1 ha2 hc1 hc2]
    rw [decodeIntBE_roundtrip 2 (by norm_num) ((b :: s).length : Int)
          (by exact le_trans (by norm_num) (Int.natCast_nonneg _))
          (by simp only [List.length_cons] at hl ⊢; norm_num; omega)]
    have hge : (0 : Int) ≤ ((b :: s).length : Int) := Int.natCast_nonneg _
    simp only [Option.map_some', if_pos hge, Int.toNat_natCast, List.take_length,
      Option.getD_some]

/-- Witness for C10 at a concrete input: header (3, 9, 7, "A"). -/
theorem C10_clientId_null_empty_collapse_witness :
    RequestHeader.decode (RequestHeader.encode 3 9 7 (some [65])) =
      some { apiKey := 3, apiVersion := 9, correlationId := 7, clientId := [65] } := by
  have h := C10_clientId_null_empty_collapse.2.2 3 9 7 (some [65])
    (by norm_num) (by norm_num) (by norm_num) (by norm_num) (by norm_num) (by norm_num)
    (by intro s hs; cases hs; decide)
  simpa using h

end Kafka

namespace Kafka
namespace Cluster

theorem brokerFold_lookup (bs : List Broker) (m0 : Int → Option Broker) (n : Int) :
    (bs.foldl (fun bm b => mapSet bm b.nodeId b) m0) n =
      match (bs.filter (fun b => b.nodeId == n)).getLast? with
      | some b => some b
      | none => m0 n := by
  induction bs using List.reverseRecOn with
  | nil => rfl
  | append_singleton bs b ih =>
    rw [List.foldl_append, List.filter_append, List.getLast?_append]
    simp only [List.foldl_cons, List.foldl_nil]
    by_cases hb : b.nodeId = n
    · have hbeq : (b.nodeId == n) = true := by simp [hb]
      simp [mapSet, List.filter_cons, hbeq, Option.or, hb]
    · have hbeq : (b.nodeId == n) = false := by simp [hb]
      simp only [mapSet, if_neg (Ne.symm hb), List.filter_cons, hbeq, Bool.false_eq_true,
        if_false, List.filter_nil, List.getLast?_nil, Option.none_or]
      exact ih

theorem topicFold_lookup (ts : List TopicMetadata)
    (tm0 : String → Option TopicMetadata) (upd0 : List String) (name : String) :
    (ts.foldl updateTopicsStep (tm0, upd0)).1 name =
      match (ts.filter (fun t => t.errorCode == 0 && t.name == name)).getLast? with
      | some t => some t
      | none => tm0 name := by
  induction ts using List.reverseRecOn generalizing upd0 with
  | nil => rfl
  | append_singleton ts t ih =>
    rw [List.foldl_append, List.filter_append, List.getLast?_append]
    simp only [List.foldl_cons, List.foldl_nil]
    rw [updateTopicsStep]
    by_cases herr : t.errorCode ≠ 0
    · rw [if_pos herr]
      have he : (t.errorCode == 0) = false := by simp [herr]
      simp only [List.filter_cons, he, Bool.false_and, Bool.false_eq_true, if_false,
        List.filter_nil, List.getLast?_nil, Option.none_or]
      exact ih upd0
    · rw [if_neg herr]
      push_neg at herr
      have he : (t.errorCode == 0) = true := by simp [herr]
      by_cases hn : t.name = name
      · have hbeq : (t.name == name) = true := by simp [hn]
        simp [mapSet, List.filter_cons, he, hbeq, Option.or, hn]
      · have hbeq : (t.name == name) = false := by simp [hn]
        simp only [mapSet, if_neg (Ne.symm hn), List.filter_cons, he, hbeq, Bool.true_and,
          Bool.false_eq_true, if_false, List.filter_nil, List.getLast?_nil, Option.none_or]
        exact ih upd0

end Cluster

/-- C7: Metadata-merge invariant.  A full topology update replaces the
broker map wholesale with the brokers of the response (the prior broker
map is gone; per node id the last response entry wins), and merges topics
per entry: the new cache entry for a name is the last response topic with
that name and error code zero when one exists, and otherwise the prior
cache entry, unchanged — so topics with nonzero error codes are skipped
and never overwrite a previously stored entry. -/
theorem C7_metadata_merge_invariant :
    (∀ (m : Cluster.ClusterMetadata) (bs : List Cluster.Broker)
        (ts : List Cluster.TopicMetadata) (cid : Option String) (ctl : Int) (n : Int),
      (Cluster.updateMetadata m bs ts cid ctl).1.brokers n =
        (bs.filter (fun b => b.nodeId == n)).getLast?) ∧
    (∀ (m : Cluster.ClusterMetadata) (bs : List Cluster.Broker)
        (ts : List Cluster.TopicMetadata) (cid : Option String) (ctl : Int) (name : String),
      (Cluster.updateMetadata m bs ts cid ctl).1.topics name =
        match (ts.filter (fun t => t.errorCode == 0 && t.name == name)).getLast? with
        | some t => some t
        | none => m.topics name) := by
  constructor
  · intro m bs ts cid ctl n
    show (bs.foldl (fun bm b => Cluster.mapSet bm b.nodeId b) (fun _ => none)) n = _
    rw [Cluster.brokerFold_lookup]
    cases hx : (bs.filter (fun b => b.nodeId == n)).getLast? <;> simp [hx]
  · intro m bs ts cid ctl name
    show (ts.foldl Cluster.updateTopicsStep (m.topics, [])).1 name = _
    rw [Cluster.topicFold_lookup]

end Kafka

namespace Kafka

/-- C8: Leader lookup results.  `findLeader` fails with the
topic-not-found error when the topic is absent from the cache, with the
partition-not-found error when the topic is known but no partition has
the requested index, with `LeaderNotAvailableError` when the partition's
leaderId is negative, and otherwise returns the leaderId;
`getPartitionsForTopic` returns the empty list, not an error, for an
unknown topic. -/
theorem C8_leader_lookup :
    (∀ (m : Cluster.ClusterMetadata) (topic : String) (partition : Int),
      m.topics topic = none →
      Cluster.findLeader m topic partition = .error .topicNotFound) ∧
    (∀ (m : Cluster.ClusterMetadata) (topic : String) (partition : Int)
        (tm : Cluster.TopicMetadata),
      m.topics topic = some tm →
      tm.partitions.find? (fun p => p.partitionIndex == partition) = none →
      Cluster.findLeader m topic partition = .error .partitionNotFound) ∧
    (∀ (m : Cluster.ClusterMetadata) (topic : String) (partition : Int)
        (tm : Cluster.TopicMetadata) (p : Cluster.PartitionMetadata),
      m.topics topic = some tm →
      tm.partitions.find? (fun p => p.partitionIndex == partition) = some p →
      p.leaderId < 0 →
      Cluster.findLeader m topic partition = .error .leaderNotAvailable) ∧
    (∀ (m : Cluster.ClusterMetadata) (topic : String) (partition : Int)
        (tm : Cluster.TopicMetadata) (p : Cluster.PartitionMetadata),
      m.topics topic = some tm →
      tm.partitions.find? (fun p => p.partitionIndex == partition) = some p →
      ¬ p.leaderId < 0 →
      Cluster.findLeader m topic partition = .ok p.leaderId) ∧
    (∀ (m : Cluster.ClusterMetadata) (topic : String),
      m.topics topic = none →
      Cluster.getPartitionsForTopic m topic = []) := by
  refine ⟨?_, ?_, ?_, ?_, ?_⟩
  · intro m topic partition h
    rw [Cluster.findLeader, h]
  · intro m topic partition tm h hf
    rw [Cluster.findLeader, h]
    simp only [hf]
  · intro m topic partition tm p h hf hneg
    rw [Cluster.findLeader, h]
    simp only [hf, if_pos hneg]
  · intro m topic partition tm p h hf hneg
    rw [Cluster.findLeader, h]
    simp only [hf, if_neg hneg]
  · intro m topic h
    rw [Cluster.getPartitionsForTopic, h]

/-- Witness for C8 at a concrete input: the empty cache knows no topic,
so `findLeader` fails with topic-not-found and `getPartitionsForTopic`
returns the empty list. -/
theorem C8_leader_lookup_witness :
    Cluster.emptyMetadata.topics "orders" = none ∧
    Cluster.findLeader Cluster.emptyMetadata "orders" 0 = .error .topicNotFound ∧
    Cluster.getPartitionsForTopic Cluster.emptyMetadata "orders" = [] :=
  ⟨rfl, C8_leader_lookup.1 Cluster.emptyMetadata "orders" 0 rfl,
   C8_leader_lookup.2.2.2.2 Cluster.emptyMetadata "orders" rfl⟩

end Kafka

namespace Kafka
namespace Cluster

theorem intLE_trans : ∀ a b c : Int, intLE a b = true → intLE b c = true → intLE a c = true := by
  intro a b c hab hbc
  simp only [intLE, decide_eq_true_eq] at *
  omega

theorem intLE_total : ∀ a b : Int, (intLE a b || intLE b a) = true := by
  intro a b
  simp only [intLE, Bool.or_eq_true, decide_eq_true_eq]
  omega

theorem mergeSort_eq_iff_perm (a b : List Int) :
    a.mergeSort intLE = b.mergeSort intLE ↔ a.Perm b := by
  constructor
  · intro h
    exact (List.mergeSort_perm a intLE).symm.trans (h ▸ List.mergeSort_perm b intLE)
  · intro h
    have hsa := List.sorted_mergeSort intLE_trans intLE_total a
    have hsb := List.sorted_mergeSort intLE_trans intLE_total b
    have hperm : (a.mergeSort intLE).Perm (b.mergeSort intLE) :=
      (List.mergeSort_perm a intLE).trans (h.trans (List.mergeSort_perm b intLE).symm)
    have hanti : IsAntisymm Int (fun x y => intLE x y = true) := by
      constructor
      intro x y hxy hyx
      simp only [intLE, decide_eq_true_eq] at hxy hyx
      omega
    exact @List.eq_of_perm_of_sorted Int (fun x y => intLE x y = true) hanti _ _ hperm hsa hsb

theorem hasArrayChanged_false_iff (a b : List Int) :
    hasArrayChanged a b = false ↔ a.Perm b := by
  rw [hasArrayChanged]
  simp only [Bool.or_eq_false_iff, bne_eq_false_iff_eq]
  constructor
  · rintro ⟨_, hs⟩
    exact (mergeSort_eq_iff_perm a b).1 hs
  · intro h
    exact ⟨h.length_eq, (mergeSort_eq_iff_perm a b).2 h⟩

theorem hasArrayChanged_true_iff (a b : List Int)
    (ha : a.Nodup) (hb : b.Nodup) :
    hasArrayChanged a b = true ↔ ¬ sameSet a b := by
  have h1 : hasArrayChanged a b = true ↔ ¬ (hasArrayChanged a b = false) := by
    cases h : hasArrayChanged a b <;> simp
  rw [h1, hasArrayChanged_false_iff, List.perm_ext_iff_of_nodup ha hb]
  exact Iff.rfl

theorem lookupPartitionLast_mem (ps : List PartitionMetadata) (idx : Int)
    (q : PartitionMetadata) (h : lookupPartitionLast ps idx = some q) : q ∈ ps := by
  rw [lookupPartitionLast] at h
  induction ps using List.reverseRecOn with
  | nil => simp at h
  | append_singleton ps r ih =>
    rw [List.foldl_append, List.foldl_cons, List.foldl_nil] at h
    by_cases hr : r.partitionIndex = idx
    · rw [if_pos hr] at h
      cases h
      simp
    · rw [if_neg hr] at h
      have := ih h
      simp [this]

end Cluster
end Kafka

namespace Kafka
namespace Cluster

theorem partitionCheck_iff (q p : PartitionMetadata)
    (hq : partListsNodup q) (hp : partListsNodup p) :
    (q.leaderId != p.leaderId || q.leaderEpoch != p.leaderEpoch ||
     hasArrayChanged q.replicaNodes p.replicaNodes ||
     hasArrayChanged q.isrNodes p.isrNodes ||
     hasArrayChanged q.offlineReplicas p.offlineReplicas) = true ↔
      specPartitionDiffers (some q) p := by
  obtain ⟨hq1, hq2, hq3⟩ := hq
  obtain ⟨hp1, hp2, hp3⟩ := hp
  rw [specPartitionDiffers]
  simp only [Bool.or_eq_true, bne_iff_ne, ne_eq]
  rw [hasArrayChanged_true_iff _ _ hq1 hp1, hasArrayChanged_true_iff _ _ hq2 hp2,
      hasArrayChanged_true_iff _ _ hq3 hp3]
  tauto

theorem hasPartitionChanges_iff (existing updated : List PartitionMetadata)
    (hex : ∀ q ∈ existing, partListsNodup q) (hup : ∀ p ∈ updated, partListsNodup p) :
    hasPartitionChanges existing updated = true ↔
      (existing.length ≠ updated.length ∨
       ∃ p ∈ updated, specPartitionDiffers (lookupPartitionLast existing p.partitionIndex) p) := by
  rw [hasPartitionChanges]
  by_cases hlen : existing.length = updated.length
  · rw [if_neg (by simp [hlen])]
    rw [List.any_eq_true]
    constructor
    · rintro ⟨p, hpmem, hpf⟩
      refine Or.inr ⟨p, hpmem, ?_⟩
      rcases hq : lookupPartitionLast existing p.partitionIndex with _ | q
      · rw [specPartitionDiffers]
        trivial
      · rw [hq] at hpf
        exact (partitionCheck_iff q p (hex q (lookupPartitionLast_mem _ _ _ hq))
          (hup p hpmem)).1 hpf
    · rintro (h | ⟨p, hpmem, hpd⟩)
      · exact absurd hlen h
      · refine ⟨p, hpmem, ?_⟩
        rcases hq : lookupPartitionLast existing p.partitionIndex with _ | q
        · rfl
        · rw [hq] at hpd
          exact (partitionCheck_iff q p (hex q (lookupPartitionLast_mem _ _ _ hq))
            (hup p hpmem)).2 hpd
  · rw [if_pos (by simp [hlen])]
    simp [hlen]

theorem topicChanged_iff (tm : String → Option TopicMetadata) (t : TopicMetadata)
    (hnodupNew : ∀ p ∈ t.partitions, partListsNodup p)
    (hnodupOld : ∀ ex, tm t.name = some ex → ∀ q ∈ ex.partitions, partListsNodup q) :
    topicChanged tm t = true ↔ specTopicChanged (tm t.name) t := by
  rw [topicChanged, specTopicChanged.eq_def]
  rcases hx : tm t.name with _ | ex
  · simp
  · simp only [Bool.or_eq_true, bne_iff_ne, ne_eq]
    rw [hasPartitionChanges_iff ex.partitions t.partitions (hnodupOld ex hx) hnodupNew]
    tauto

theorem topicChanged_congr (tm1 tm0 : String → Option TopicMetadata) (t : TopicMetadata)
    (h : tm1 t.name = tm0 t.name) : topicChanged tm1 t = topicChanged tm0 t := by
  rw [topicChanged, topicChanged, h]

end Cluster
end Kafka


namespace Kafka
namespace Cluster

theorem fold_upd_stable (ts : List TopicMetadata) :
    ∀ (tm : String → Option TopicMetadata) (upd : List String) (name : String),
      name ∉ ts.map (fun x => x.name) →
      (name ∈ (ts.foldl updateTopicsStep (tm, upd)).2 ↔ name ∈ upd) := by
  induction ts with
  | nil => intro tm upd name _; rfl
  | cons s rest ih =>
    intro tm upd name hname
    simp only [List.map_cons, List.mem_cons, not_or] at hname
    obtain ⟨hns, hnrest⟩ := hname
    rw [List.foldl_cons, updateTopicsStep]
    by_cases herr : s.errorCode ≠ 0
    · rw [if_pos herr]
      exact ih tm upd name hnrest
    · rw [if_neg herr]
      by_cases hch : topicChanged tm s = true
      · rw [if_pos hch]
        rw [ih _ _ name hnrest]
        simp [hns]
      · rw [if_neg hch]
        exact ih _ _ name hnrest

theorem fold_mem_updated (ts : List TopicMetadata) :
    ∀ (t : TopicMetadata), t ∈ ts →
      ((ts.map (fun x => x.name)).Nodup) →
      ∀ (tm0 : String → Option TopicMetadata) (upd0 : List String),
        (t.name ∈ (ts.foldl updateTopicsStep (tm0, upd0)).2 ↔
          t.name ∈ upd0 ∨ (t.errorCode = 0 ∧ topicChanged tm0 t = true)) := by
  induction ts with
  | nil => intro t ht; exact absurd ht (by simp)
  | cons s rest ih =>
    intro t ht hnames tm0 upd0
    simp only [List.map_cons, List.nodup_cons] at hnames
    obtain ⟨hsname, hrestnodup⟩ := hnames
    rcases List.mem_cons.1 ht with hts | htrest
    · subst hts
      rw [List.foldl_cons, updateTopicsStep]
      by_cases herr : t.errorCode ≠ 0
      · rw [if_pos herr]
        rw [fold_upd_stable rest _ _ _ hsname]
        simp [herr]
      · push_neg at herr
        rw [if_neg (by simp [herr])]
        by_cases hch : topicChanged tm0 t = true
        · rw [if_pos hch, fold_upd_stable rest _ _ _ hsname]
          simp [hch, herr]
        · rw [if_neg hch, fold_upd_stable rest _ _ _ hsname]
          simp [hch, herr]
    · have hneq : s.name ≠ t.name := by
        intro heq
        exact hsname (heq ▸ List.mem_map_of_mem (fun x => x.name) htrest)
      have hneq2 : t.name ≠ s.name := fun h => hneq h.symm
      rw [List.foldl_cons, updateTopicsStep]
      by_cases herrS : s.errorCode ≠ 0
      · rw [if_pos herrS]
        exact ih t htrest hrestnodup tm0 upd0
      · rw [if_neg herrS]
        have hcongr : topicChanged (mapSet tm0 s.name s) t = topicChanged tm0 t :=
          topicChanged_congr _ _ t (by rw [mapSet]; exact if_neg hneq2)
        by_cases hch : topicChanged tm0 s = true
        · rw [if_pos hch, ih t htrest hrestnodup _ _, hcongr]
          simp [hneq2]
        · rw [if_neg hch, ih t htrest hrestnodup _ _, hcongr]

end Cluster
end Kafka

namespace Kafka

/-- C6 counterexample: a newly seen topic whose response entry has a
nonzero error code is skipped by `updateMetadata` and reported in no
changed-set, although the claim's condition (newly seen) holds for it —
so "reported changed exactly when newly seen/..." fails as stated. -/
theorem C6_counterexample :
    Cluster.emptyMetadata.topics "a" = none ∧
    Cluster.specTopicChanged (Cluster.emptyMetadata.topics "a")
      ⟨1, "a", false, [], 0⟩ ∧
    (Cluster.updateMetadata Cluster.emptyMetadata []
        [⟨1, "a", false, [], 0⟩] none (-1)).2.1 = [] :=
  ⟨rfl, trivial, rfl⟩

/-- C6 (amended): under unique topic names in the response and
duplicate-free replica/ISR/offline lists, a response topic is reported
changed by an update exactly when its entry has error code zero AND (it
is newly seen, its partition count differs, or some partition's leader
id, leader epoch, or replica/ISR/offline-replica set
(order-insensitively, as sets) differs from the previous snapshot) — in
particular topics with nonzero error codes are never reported, even when
newly seen; and the very first successful update always emits the
`update` notification even when its changed-set is empty. -/
theorem C6_topology_change_detection :
    (∀ (m : Cluster.ClusterMetadata) (brokers : List Cluster.Broker)
        (ts : List Cluster.TopicMetadata) (cid : Option String) (ctl : Int)
        (t : Cluster.TopicMetadata),
      t ∈ ts → (ts.map (fun x => x.name)).Nodup →
      (∀ p ∈ t.partitions, Cluster.partListsNodup p) →
      (∀ ex, m.topics t.name = some ex → ∀ q ∈ ex.partitions, Cluster.partListsNodup q) →
      (t.name ∈ (Cluster.updateMetadata m brokers ts cid ctl).2.1 ↔
        t.errorCode = 0 ∧ Cluster.specTopicChanged (m.topics t.name) t)) ∧
    (∀ (m : Cluster.ClusterMetadata) (brokers : List Cluster.Broker)
        (ts : List Cluster.TopicMetadata) (cid : Option String) (ctl : Int),
      m.isMetadataInitialized = false →
      (Cluster.updateMetadata m brokers ts cid ctl).2.2 = true) := by
  constructor
  · intro m brokers ts cid ctl t ht hnames hnodupNew hnodupOld
    show t.name ∈ (ts.foldl Cluster.updateTopicsStep (m.topics, [])).2 ↔ _
    rw [Cluster.fold_mem_updated ts t ht hnames m.topics []]
    simp only [List.not_mem_nil, false_or]
    exact and_congr_right
      (fun _ => Cluster.topicChanged_iff m.topics t hnodupNew hnodupOld)
  · intro m brokers ts cid ctl h
    show (decide _ || !m.isMetadataInitialized) = true
    rw [h]
    simp

/-- Witness for C6 (amended) at a concrete input: updating the empty
cache with one error-free topic "a" reports "a" as changed (newly
seen). -/
theorem C6_topology_change_detection_witness :
    ((⟨0, "a", false, [], 0⟩ : Cluster.TopicMetadata) ∈
        [(⟨0, "a", false, [], 0⟩ : Cluster.TopicMetadata)]) ∧
    "a" ∈ (Cluster.updateMetadata Cluster.emptyMetadata []
        [⟨0, "a", false, [], 0⟩] none (-1)).2.1 := by
  refine ⟨by simp, ?_⟩
  exact (C6_topology_change_detection.1 Cluster.emptyMetadata []
    [⟨0, "a", false, [], 0⟩] none (-1) ⟨0, "a", false, [], 0⟩
    (by simp) (by simp) (by simp)
    (fun ex hx => Option.noConfusion hx)).mpr ⟨rfl, trivial⟩

end Kafka

namespace Kafka
namespace Connection

@[simp] theorem bufBytes_some (b : List Nat) : bufBytes (some b) = b := rfl

@[simp] theorem bufBytes_none : bufBytes none = [] := rfl

theorem handleIncomingData_bytes (st : Option (List Nat)) (c : List Nat) :
    (match st with
     | some existing => existing ++ c
     | none => c) = bufBytes st ++ c := by
  cases st <;> rfl

theorem encodeFrame_length (payload : List Nat) :
    (encodeFrame payload).length = 4 + payload.length := by
  rw [encodeFrame, List.length_append, intToBytesBE, natToBytesBE_length]

theorem decode4_nat (k : Nat) (hk : k < 2 ^ 31) (s : List Nat) :
    decodeIntBE 4 (intToBytesBE 4 (k : Int) ++ s) = some ((k : Int), s) := by
  exact decodeIntBE_roundtrip 4 (by norm_num) (k : Int)
    (by exact le_trans (by norm_num) (Int.natCast_nonneg _))
    (by norm_num; exact_mod_cast hk) s

theorem decode4_frame (payload : List Nat) (hn : payload.length < 2 ^ 31) :
    decodeIntBE 4 (encodeFrame payload) = some ((payload.length : Int), payload) := by
  rw [encodeFrame]
  exact decode4_nat payload.length hn payload

/-- A proper byte prefix of a well-formed frame peels nothing. -/
theorem processLoop_incomplete (payload : List Nat) (hn : payload.length < 2 ^ 31)
    (p q : List Nat) (hpq : p ++ q = encodeFrame payload)
    (hlt : p.length < 4 + payload.length) (fuel : Nat) :
    processLoop fuel p 0 [] = ([], 0) := by
  cases fuel with
  | zero => rfl
  | succ fuel =>
    rw [processLoop]
    by_cases h4 : p.length - 0 < 4
    · rw [if_pos h4]
    · rw [if_neg h4]
      set A := intToBytesBE 4 (payload.length : Int) with hAdef
      have hA : A.length = 4 := by rw [hAdef, intToBytesBE, natToBytesBE_length]
      have htake : p.take 4 = A := by
        have h1 : (p ++ q).take 4 = p.take 4 :=
          List.take_append_of_le_length (by omega)
        have h2 : (encodeFrame payload).take 4 = A := by
          rw [encodeFrame, ← hAdef, ← hA, List.take_left]
        rw [hpq, h2] at h1
        exact h1.symm
      have hdec : decodeIntBE 4 p = some ((payload.length : Int), p.drop 4) := by
        conv_lhs => rw [← List.take_append_drop 4 p, htake]
        exact decode4_nat payload.length hn (p.drop 4)
      rw [List.drop_zero, hdec]
      dsimp only
      split
      · rfl
      · rename_i hfalse
        exfalso
        push_cast at hfalse
        omega

theorem processLoop_stop (buf : List Nat) (processed : Nat) (acc : List (List Nat))
    (h : buf.length ≤ processed) (fuel : Nat) :
    processLoop fuel buf processed acc = (acc, processed) := by
  cases fuel with
  | zero => rfl
  | succ fuel =>
    rw [processLoop, if_pos (by omega)]

/-- A buffer holding exactly one well-formed frame peels exactly its
payload. -/
theorem processLoop_complete (payload : List Nat) (hn : payload.length < 2 ^ 31)
    (fuel : Nat) (hfuel : 1 ≤ fuel) :
    processLoop fuel (encodeFrame payload) 0 [] = ([payload], 4 + payload.length) := by
  cases fuel with
  | zero => omega
  | succ fuel =>
    have hlen : (encodeFrame payload).length = 4 + payload.length := encodeFrame_length payload
    rw [processLoop, if_neg (by omega), List.drop_zero, decode4_frame payload hn]
    dsimp only
    split
    · rename_i hfalse
      exfalso
      push_cast at hfalse
      omega
    · split
      · rename_i hfalse
        exfalso
        have : ¬ ((payload.length : Int) < 0) := by exact_mod_cast by omega
        exact this (by assumption)
      · rw [Int.toNat_natCast]
        have hdrop : (encodeFrame payload).drop (0 + 4) = payload := by
          have hA : (intToBytesBE 4 (payload.length : Int)).length = 4 := by
            rw [intToBytesBE, natToBytesBE_length]
          have hd := List.drop_left (intToBytesBE 4 (payload.length : Int)) payload
          rw [hA] at hd
          rw [encodeFrame, show (0 + 4) = 4 from rfl]
          exact hd
        rw [hdrop, List.take_length, List.nil_append]
        exact processLoop_stop _ _ _ (by omega) fuel

theorem handleIncomingData_incomplete (payload : List Nat) (hn : payload.length < 2 ^ 31)
    (st : Option (List Nat)) (c q : List Nat)
    (hpq : (bufBytes st ++ c) ++ q = encodeFrame payload)
    (hlt : (bufBytes st ++ c).length < 4 + payload.length) :
    handleIncomingData st c = ([], some (bufBytes st ++ c)) := by
  rw [handleIncomingData.eq_def]
  dsimp only
  rw [handleIncomingData_bytes st c]
  rw [processLoop_incomplete payload hn _ q hpq hlt]
  rfl

theorem handleIncomingData_complete (payload : List Nat) (hn : payload.length < 2 ^ 31)
    (st : Option (List Nat)) (c : List Nat)
    (hfull : bufBytes st ++ c = encodeFrame payload) :
    handleIncomingData st c = ([payload], none) := by
  rw [handleIncomingData.eq_def]
  dsimp only
  rw [handleIncomingData_bytes st c, hfull]
  rw [processLoop_complete payload hn _ (by omega)]
  have hlen : (encodeFrame payload).length = 4 + payload.length := encodeFrame_length payload
  rw [if_neg (by omega), if_neg (by omega)]

theorem handleIncomingData_empty (st : Option (List Nat)) (hb : bufBytes st = []) :
    handleIncomingData st [] = ([], some []) := by
  rw [handleIncomingData.eq_def]
  dsimp only
  rw [handleIncomingData_bytes st [], hb]
  rfl

theorem feed_empties (chunks : List (List Nat)) :
    chunks.flatten = [] → ∀ st : Option (List Nat), bufBytes st = [] →
      (feed st chunks).1 = [] ∧ bufBytes (feed st chunks).2 = [] := by
  induction chunks with
  | nil => intro _ st hb; exact ⟨rfl, hb⟩
  | cons c rest ih =>
    intro hflat st hb
    rw [List.flatten_cons] at hflat
    obtain ⟨hc, hrest⟩ := List.append_eq_nil.1 hflat
    subst hc
    rw [feed]
    simp only [handleIncomingData_empty st hb]
    obtain ⟨h1, h2⟩ := ih hrest (some []) rfl
    exact ⟨by simpa using h1, h2⟩

theorem feed_incomplete (payload : List Nat) (hn : payload.length < 2 ^ 31)
    (chunks : List (List Nat)) :
    ∀ (st : Option (List Nat)) (q : List Nat),
      (bufBytes st ++ chunks.flatten) ++ q = encodeFrame payload →
      (bufBytes st ++ chunks.flatten).length < 4 + payload.length →
      (feed st chunks).1 = [] ∧
        bufBytes (feed st chunks).2 = bufBytes st ++ chunks.flatten := by
  induction chunks with
  | nil =>
    intro st q hpq hlt
    simp only [List.flatten_nil, List.append_nil] at *
    exact ⟨rfl, rfl⟩
  | cons c rest ih =>
    intro st q hpq hlt
    rw [List.flatten_cons] at hpq hlt
    have hpq1 : ((bufBytes st ++ c) ++ rest.flatten) ++ q = encodeFrame payload := by
      rw [← hpq]
      simp [List.append_assoc]
    have hlt1 : (bufBytes st ++ c).length < 4 + payload.length := by
      simp only [List.length_append] at hlt ⊢
      omega
    rw [feed]
    rw [handleIncomingData_incomplete payload hn st c (rest.flatten ++ q)
      (by rw [← hpq1]; simp [List.append_assoc]) hlt1]
    have hstep := ih (some (bufBytes st ++ c)) q
      (by simpa using hpq1)
      (by simp only [bufBytes_some]; simp only [List.length_append] at hlt ⊢; omega)
    obtain ⟨h1, h2⟩ := hstep
    refine ⟨by simpa using h1, ?_⟩
    rw [h2]
    simp [List.append_assoc]

theorem feed_complete (payload : List Nat) (hn : payload.length < 2 ^ 31)
    (chunks : List (List Nat)) :
    ∀ (st : Option (List Nat)),
      (bufBytes st).length < 4 + payload.length →
      bufBytes st ++ chunks.flatten = encodeFrame payload →
      (feed st chunks).1 = [payload] ∧ bufBytes (feed st chunks).2 = [] := by
  induction chunks with
  | nil =>
    intro st hlt hfull
    rw [List.flatten_nil, List.append_nil] at hfull
    have := encodeFrame_length payload
    rw [hfull] at hlt
    omega
  | cons c rest ih =>
    intro st hlt hfull
    rw [List.flatten_cons] at hfull
    by_cases hcase : (bufBytes st ++ c).length < 4 + payload.length
    · rw [feed]
      rw [handleIncomingData_incomplete payload hn st c rest.flatten
        (by rw [← hfull]; simp [List.append_assoc]) hcase]
      have hstep := ih (some (bufBytes st ++ c))
        (by simpa using hcase)
        (by simp only [bufBytes_some]; rw [List.append_assoc]; exact hfull)
      obtain ⟨h1, h2⟩ := hstep
      exact ⟨by simpa using h1, h2⟩
    · have hflen : (encodeFrame payload).length = 4 + payload.length :=
        encodeFrame_length payload
      have hlens : (bufBytes st).length + (c.length + rest.flatten.length) =
          4 + payload.length := by
        have hl := congrArg List.length hfull
        simp only [List.length_append] at hl
        omega
      have hrestnil : rest.flatten = [] := by
        have : rest.flatten.length = 0 := by
          simp only [List.length_append] at hcase
          omega
        exact List.eq_nil_of_length_eq_zero this
      have hfull1 : bufBytes st ++ c = encodeFrame payload := by
        rw [hrestnil, List.append_nil] at hfull
        exact hfull
      rw [feed]
      rw [handleIncomingData_complete payload hn st c hfull1]
      obtain ⟨h1, h2⟩ := feed_empties rest hrestnil none rfl
      refine ⟨?_, h2⟩
      rw [h1]
      rfl

end Connection
end Kafka

namespace Kafka

/-- C2: Frame reassembly.  For every complete response frame (4-byte
big-endian length prefix followed by that many payload bytes) and every
partition of its bytes into successive chunks, feeding the chunks to the
connection's incoming-data handler produces exactly the one message (the
frame payload), identically for every split, and leaves the pending
buffer empty; while the fed bytes form only a proper prefix of the frame,
no message is produced and the pending buffer holds exactly the bytes fed
so far (already-consumed bytes are never re-read: each step consumes only
the pending buffer plus the new chunk). -/
theorem C2_frame_reassembly :
    ∀ payload : List Nat, payload.length < 2 ^ 31 →
      (∀ chunks : List (List Nat),
        chunks.flatten = Connection.encodeFrame payload →
        (Connection.feed none chunks).1 = [payload] ∧
          Connection.bufBytes (Connection.feed none chunks).2 = []) ∧
      (∀ (chunks : List (List Nat)) (q : List Nat), q ≠ [] →
        chunks.flatten ++ q = Connection.encodeFrame payload →
        (Connection.feed none chunks).1 = [] ∧
          Connection.bufBytes (Connection.feed none chunks).2 = chunks.flatten) := by
  intro payload hn
  constructor
  · intro chunks hflat
    have h := Connection.feed_complete payload hn chunks none
      (by simp) (by simpa using hflat)
    exact h
  · intro chunks q hq hpq
    have hlt : ([] ++ chunks.flatten : List Nat).length < 4 + payload.length := by
      have hl := congrArg List.length hpq
      rw [List.length_append, Connection.encodeFrame_length] at hl
      have : q.length ≠ 0 := fun h0 => hq (List.eq_nil_of_length_eq_zero h0)
      simp only [List.nil_append]
      omega
    have h := Connection.feed_incomplete payload hn chunks none q
      (by simpa using hpq) (by simpa using hlt)
    simpa using h

/-- Witness for C2 at a concrete input: the frame for payload [9, 8] fed
in three chunks split inside the length prefix and inside the payload. -/
theorem C2_frame_reassembly_witness :
    (([[0, 0], [0, 2, 9], [8]] : List (List Nat)).flatten =
        Connection.encodeFrame [9, 8]) ∧
      (Connection.feed none [[0, 0], [0, 2, 9], [8]]).1 = [[9, 8]] ∧
      Connection.bufBytes (Connection.feed none [[0, 0], [0, 2, 9], [8]]).2 = [] := by
  have hflat : (([[0, 0], [0, 2, 9], [8]] : List (List Nat))).flatten =
      Connection.encodeFrame [9, 8] := by decide
  have h := (C2_frame_reassembly [9, 8] (by norm_num)).1 [[0, 0], [0, 2, 9], [8]] hflat
  exact ⟨hflat, h.1, h.2⟩

end Kafka

namespace Kafka
namespace Connection

theorem settle_ne_none (p : Option Outcome) (o : Outcome) : settle p o ≠ none := by
  cases p <;> simp [settle]

theorem settle_some (o x : Outcome) : settle (some o) x = some o := rfl

theorem settle_none (o : Outcome) : settle none o = some o := rfl

/-- A settled promise is never unsettled and its outcome never changes:
every handler either leaves a promise alone or calls `settle`, which is a
no-op on an already-settled promise. -/
theorem step_promise_mono (s : ConnState) (e : ConnEvent) (cid : Int) (o : Outcome)
    (h : s.promise cid = some o) : (step s e).promise cid = some o := by
  cases e with
  | response frame =>
    rw [step]
    cases hdec : decodeIntBE 4 frame with
    | none =>
      dsimp only
      cases hin : s.inFlight cid <;> dsimp only
      · exact h
      · rw [h]; rfl
    | some p =>
      obtain ⟨cid2, rest⟩ := p
      dsimp only
      cases hin : s.inFlight cid2 with
      | none => exact h
      | some r =>
        dsimp only
        by_cases hc : cid = cid2
        · rw [if_pos hc, h]; rfl
        · rw [if_neg hc]; exact h
  | sweep now =>
    rw [step]
    dsimp only
    cases hin : s.inFlight cid with
    | none => exact h
    | some r =>
      dsimp only
      by_cases ht : r.timeout < now - r.sentTime
      · rw [if_pos ht, h]; rfl
      · rw [if_neg ht]; exact h
  | writeError w =>
    rw [step]
    dsimp only
    by_cases hc : cid = w
    · rw [if_pos hc, h]; rfl
    · rw [if_neg hc]; exact h
  | disconnect =>
    rw [step]
    dsimp only
    cases hin : s.inFlight cid <;> dsimp only
    · exact h
    · rw [h]; rfl

theorem run_promise_mono (evs : List ConnEvent) :
    ∀ (s : ConnState) (cid : Int) (o : Outcome),
      s.promise cid = some o → (run s evs).promise cid = some o := by
  induction evs with
  | nil => intro s cid o h; exact h
  | cons e rest ih =>
    intro s cid o h
    exact ih (step s e) cid o (step_promise_mono s e cid o h)

/-- Every event either keeps an in-flight entry untouched or settles its
promise in the same step. -/
theorem step_entry_or_settled (s : ConnState) (e : ConnEvent) (cid : Int)
    (r : InFlightRequest) (h : s.inFlight cid = some r) :
    (step s e).inFlight cid = some r ∨ (step s e).promise cid ≠ none := by
  cases e with
  | response frame =>
    rw [step]
    cases hdec : decodeIntBE 4 frame with
    | none =>
      right
      dsimp only
      rw [h]
      exact settle_ne_none _ _
    | some p =>
      obtain ⟨cid2, rest⟩ := p
      dsimp only
      cases hin : s.inFlight cid2 with
      | none => left; exact h
      | some r2 =>
        dsimp only
        by_cases hc : cid = cid2
        · right; rw [if_pos hc]; exact settle_ne_none _ _
        · left; rw [if_neg hc]; exact h
  | sweep now =>
    rw [step]
    dsimp only
    rw [h]
    dsimp only
    by_cases ht : r.timeout < now - r.sentTime
    · right; rw [if_pos ht]; exact settle_ne_none _ _
    · left; rw [if_neg ht]
  | writeError w =>
    rw [step]
    dsimp only
    by_cases hc : cid = w
    · right; rw [if_pos hc]; exact settle_ne_none _ _
    · left; rw [if_neg hc]; exact h
  | disconnect =>
    right
    rw [step]
    dsimp only
    rw [h]
    exact settle_ne_none _ _

theorem run_promise_ne_none (evs : List ConnEvent) :
    ∀ (s : ConnState) (cid : Int), s.promise cid ≠ none →
      (run s evs).promise cid ≠ none := by
  intro s cid h
  cases hp : s.promise cid with
  | none => exact absurd hp h
  | some o => rw [run_promise_mono evs s cid o hp]; simp

end Connection
end Kafka

namespace Kafka
namespace Connection

theorem step_response_drop (s : ConnState) (frame : List Nat) (cid : Int) (rest : List Nat)
    (hdec : decodeIntBE 4 frame = some (cid, rest)) (hin : s.inFlight cid = none) :
    step s (.response frame) = s := by
  rw [step, hdec]
  dsimp only
  rw [hin]

theorem step_sweep_removes (s : ConnState) (now cid : Int) (r : InFlightRequest)
    (h : s.inFlight cid = some r) (ht : r.timeout < now - r.sentTime) :
    (step s (.sweep now)).inFlight cid = none := by
  rw [step]
  dsimp only
  rw [h]
  dsimp only
  rw [if_pos ht]

theorem step_sweep_settles (s : ConnState) (now cid : Int) (r : InFlightRequest)
    (h : s.inFlight cid = some r) (ht : r.timeout < now - r.sentTime)
    (hp : s.promise cid = none) :
    (step s (.sweep now)).promise cid = some .rejectedTimeout := by
  rw [step]
  dsimp only
  rw [h]
  dsimp only
  rw [if_pos ht, hp]
  rfl

theorem step_sweep_keeps (s : ConnState) (now cid : Int) (r : InFlightRequest)
    (h : s.inFlight cid = some r) (ht : ¬ (r.timeout < now - r.sentTime)) :
    (step s (.sweep now)).inFlight cid = some r ∧
      (step s (.sweep now)).promise cid = s.promise cid := by
  constructor <;> (rw [step]; dsimp only; rw [h]; dsimp only; rw [if_neg ht])

theorem step_writeError_settles (s : ConnState) (cid : Int) (hp : s.promise cid = none) :
    (step s (.writeError cid)).promise cid = some .rejectedWriteError := by
  rw [step]
  dsimp only
  rw [if_pos rfl, hp]
  rfl

theorem step_disconnect_settles (s : ConnState) (cid : Int) (r : InFlightRequest)
    (h : s.inFlight cid = some r) (hp : s.promise cid = none) :
    (step s .disconnect).promise cid = some .rejectedDisconnected := by
  rw [step]
  dsimp only
  rw [h]
  dsimp only
  rw [hp]
  rfl

theorem step_response_resolves (s : ConnState) (frame : List Nat) (cid : Int)
    (rest : List Nat) (r : InFlightRequest)
    (hdec : decodeIntBE 4 frame = some (cid, rest)) (h : s.inFlight cid = some r)
    (hp : s.promise cid = none) :
    (step s (.response frame)).promise cid = some (.resolved (frame.drop 4)) := by
  rw [step, hdec]
  dsimp only
  rw [h]
  dsimp only
  rw [if_pos rfl, hp]
  rfl

/-- Liveness: if the event sequence contains a teardown, a write-error
callback for the request, a matching response, or an eligible timeout
sweep, the request's promise is settled by the end. -/
theorem run_terminal_settles (evs : List ConnEvent) :
    ∀ (s : ConnState) (cid : Int) (r : InFlightRequest), s.inFlight cid = some r →
      (ConnEvent.disconnect ∈ evs ∨ ConnEvent.writeError cid ∈ evs ∨
       (∃ frame rest, ConnEvent.response frame ∈ evs ∧
          decodeIntBE 4 frame = some (cid, rest)) ∨
       (∃ now, ConnEvent.sweep now ∈ evs ∧ r.timeout < now - r.sentTime)) →
      (run s evs).promise cid ≠ none := by
  induction evs with
  | nil =>
    rintro s cid r h (hmem | hmem | ⟨f, rest, hmem, _⟩ | ⟨now, hmem, _⟩) <;> simp at hmem
  | cons e tail ih =>
    intro s cid r h hterm
    have hafter : (step s e).promise cid ≠ none →
        (run s (e :: tail)).promise cid ≠ none := by
      intro hx
      exact run_promise_ne_none tail (step s e) cid hx
    have hsettled : s.promise cid ≠ none → (run s (e :: tail)).promise cid ≠ none := by
      intro hx
      exact run_promise_ne_none (e :: tail) s cid hx
    rcases hps : s.promise cid with _ | o
    case some => exact hsettled (by rw [hps]; simp)
    rcases hterm with hmem | hmem | ⟨frame, rest, hmem, hdec⟩ | ⟨now, hmem, ht⟩
    · rcases List.mem_cons.1 hmem with he | htail
      · subst he
        exact hafter (by rw [step_disconnect_settles s cid r h hps]; simp)
      · rcases step_entry_or_settled s e cid r h with hkeep | hset
        · exact ih (step s e) cid r hkeep (Or.inl htail)
        · exact hafter hset
    · rcases List.mem_cons.1 hmem with he | htail
      · subst he
        exact hafter (by rw [step_writeError_settles s cid hps]; simp)
      · rcases step_entry_or_settled s e cid r h with hkeep | hset
        · exact ih (step s e) cid r hkeep (Or.inr (Or.inl htail))
        · exact hafter hset
    · rcases List.mem_cons.1 hmem with he | htail
      · subst he
        exact hafter (by rw [step_response_resolves s frame cid rest r hdec h hps]; simp)
      · rcases step_entry_or_settled s e cid r h with hkeep | hset
        · exact ih (step s e) cid r hkeep (Or.inr (Or.inr (Or.inl ⟨frame, rest, htail, hdec⟩)))
        · exact hafter hset
    · rcases List.mem_cons.1 hmem with he | htail
      · subst he
        exact hafter (by rw [step_sweep_settles s now cid r h ht hps]; simp)
      · rcases step_entry_or_settled s e cid r h with hkeep | hset
        · exact ih (step s e) cid r hkeep (Or.inr (Or.inr (Or.inr ⟨now, htail, ht⟩)))
        · exact hafter hset

end Connection
end Kafka

namespace Kafka

/-- C4: Timeout isolation.  When an in-flight request's age exceeds its
own timeout, the sweep removes it from the in-flight table and rejects
its (pending) promise with `TimeoutError` (the spec's `RequestTimeout`),
while leaving every entry that has not exceeded its timeout untouched;
a response frame arriving later for a correlation id that is no longer
in the table leaves the connection state completely unchanged — no
error and no effect on any other in-flight request. -/
theorem C4_timeout_isolation :
    (∀ (s : Connection.ConnState) (now cid : Int) (r : Connection.InFlightRequest),
      s.inFlight cid = some r → r.timeout < now - r.sentTime →
      (Connection.step s (.sweep now)).inFlight cid = none ∧
      (s.promise cid = none →
        (Connection.step s (.sweep now)).promise cid = some .rejectedTimeout)) ∧
    (∀ (s : Connection.ConnState) (now cid : Int) (r : Connection.InFlightRequest),
      s.inFlight cid = some r → ¬ (r.timeout < now - r.sentTime) →
      (Connection.step s (.sweep now)).inFlight cid = some r ∧
      (Connection.step s (.sweep now)).promise cid = s.promise cid) ∧
    (∀ (s : Connection.ConnState) (frame : List Nat) (cid : Int) (rest : List Nat),
      decodeIntBE 4 frame = some (cid, rest) → s.inFlight cid = none →
      Connection.step s (.response frame) = s) := by
  refine ⟨?_, ?_, ?_⟩
  · intro s now cid r h ht
    exact ⟨Connection.step_sweep_removes s now cid r h ht,
      fun hp => Connection.step_sweep_settles s now cid r h ht hp⟩
  · intro s now cid r h ht
    exact Connection.step_sweep_keeps s now cid r h ht
  · intro s frame cid rest hdec hin
    exact Connection.step_response_drop s frame cid rest hdec hin

/-- Witness for C4 at a concrete input: one request with timeout 100 sent
at time 0, swept at time 200, and a later response for the same
correlation id dropped without changing the state. -/
theorem C4_timeout_isolation_witness :
    ((Connection.step
        ⟨fun c => if c = 1 then some ⟨0, 100⟩ else none, fun _ => none⟩
        (.sweep 200)).inFlight 1 = none ∧
     (Connection.step
        ⟨fun c => if c = 1 then some ⟨0, 100⟩ else none, fun _ => none⟩
        (.sweep 200)).promise 1 = some .rejectedTimeout) ∧
    Connection.step
        ⟨fun _ => none, fun _ => none⟩ (.response [0, 0, 0, 1, 7]) =
      (⟨fun _ => none, fun _ => none⟩ : Connection.ConnState) := by
  have h1 := (C4_timeout_isolation.1
    ⟨fun c => if c = 1 then some ⟨0, 100⟩ else none, fun _ => none⟩ 200 1 ⟨0, 100⟩
    (by norm_num) (by norm_num))
  have h2 := C4_timeout_isolation.2.2 ⟨fun _ => none, fun _ => none⟩ [0, 0, 0, 1, 7] 1 [7]
    (by decide) rfl
  exact ⟨⟨h1.1, h1.2 rfl⟩, h2⟩

/-- C3 counterexample: for a pending accepted send, the socket-write
error callback rejects the request with the raw write error — an outcome
distinct from all three outcomes the claim enumerates (resolve, reject
with Timeout, reject with Disconnected). -/
theorem C3_counterexample :
    (Connection.run
        ⟨fun c => if c = 1 then some ⟨0, 1000⟩ else none, fun _ => none⟩
        [.writeError 1]).promise 1 = some .rejectedWriteError ∧
    (∀ body, Connection.Outcome.rejectedWriteError ≠ .resolved body) ∧
    Connection.Outcome.rejectedWriteError ≠ .rejectedTimeout ∧
    Connection.Outcome.rejectedWriteError ≠ .rejectedDisconnected := by
  refine ⟨rfl, fun body => ?_, by simp, by simp⟩
  simp

/-- C3 (amended): exactly one of FOUR terminal outcomes — resolve with
the response body with the 4-byte header stripped, reject with Timeout,
reject with Disconnected, or reject with the raw socket write error —
happens for every accepted send: a settled promise never changes again
under any further events (at most one), and if the event sequence
contains a disconnect, a write-error callback for the request, a
matching response, or a sweep past the request's own deadline, the
promise is settled by the end (at least one); a settling response
resolves with exactly the frame minus its 4-byte header. -/
theorem C3_exactly_one_terminal :
    (∀ (s : Connection.ConnState) (cid : Int) (o : Connection.Outcome)
        (evs : List Connection.ConnEvent),
      s.promise cid = some o → (Connection.run s evs).promise cid = some o) ∧
    (∀ (s : Connection.ConnState) (cid : Int) (r : Connection.InFlightRequest)
        (evs : List Connection.ConnEvent),
      s.inFlight cid = some r →
      (Connection.ConnEvent.disconnect ∈ evs ∨
       Connection.ConnEvent.writeError cid ∈ evs ∨
       (∃ frame rest, Connection.ConnEvent.response frame ∈ evs ∧
          decodeIntBE 4 frame = some (cid, rest)) ∨
       (∃ now, Connection.ConnEvent.sweep now ∈ evs ∧ r.timeout < now - r.sentTime)) →
      (Connection.run s evs).promise cid ≠ none) ∧
    (∀ (s : Connection.ConnState) (frame : List Nat) (cid : Int) (rest : List Nat)
        (r : Connection.InFlightRequest),
      decodeIntBE 4 frame = some (cid, rest) → s.inFlight cid = some r →
      s.promise cid = none →
      (Connection.step s (.response frame)).promise cid =
        some (.resolved (frame.drop 4))) ∧
    (∀ (s : Connection.ConnState) (cid : Int) (r : Connection.InFlightRequest),
      s.inFlight cid = some r → s.promise cid = none →
      (Connection.step s .disconnect).promise cid = some .rejectedDisconnected) ∧
    (∀ (s : Connection.ConnState) (cid : Int),
      s.promise cid = none →
      (Connection.step s (.writeError cid)).promise cid = some .rejectedWriteError) := by
  exact ⟨fun s cid o evs h => Connection.run_promise_mono evs s cid o h,
    fun s cid r evs h hterm => Connection.run_terminal_settles evs s cid r h hterm,
    fun s frame cid rest r hdec h hp =>
      Connection.step_response_resolves s frame cid rest r hdec h hp,
    fun s cid r h hp => Connection.step_disconnect_settles s cid r h hp,
    fun s cid hp => Connection.step_writeError_settles s cid hp⟩

/-- Witness for C3 (amended) at a concrete input: a pending request
settled by a disconnect stays settled with the same outcome through a
later sweep, and the liveness part applied to a singleton disconnect
trace. -/
theorem C3_exactly_one_terminal_witness :
    (Connection.run
        ⟨fun _ => none, fun c => if c = 1 then some .rejectedDisconnected else none⟩
        [.sweep 500]).promise 1 = some .rejectedDisconnected ∧
    (Connection.run
        ⟨fun c => if c = 1 then some ⟨0, 100⟩ else none, fun _ => none⟩
        [.disconnect]).promise 1 ≠ none := by
  constructor
  · exact C3_exactly_one_terminal.1
      ⟨fun _ => none, fun c => if c = 1 then some .rejectedDisconnected else none⟩
      1 .rejectedDisconnected [.sweep 500] rfl
  · exact C3_exactly_one_terminal.2.1
      ⟨fun c => if c = 1 then some ⟨0, 100⟩ else none, fun _ => none⟩
      1 ⟨0, 100⟩ [.disconnect] (by norm_num) (Or.inl (by simp))

end Kafka

namespace Kafka
namespace NetworkClient

theorem sendBody_refreshes_le_one (auto : Bool) (w : World) :
    (sendBody auto w).2.1 ≤ 1 := by
  rw [sendBody.eq_def]
  rcases hds : doSend w with ⟨r, w1⟩
  rcases r with p | e
  · simp
  · rcases e
    case disconnected =>
      dsimp only
      split
      · split
        · rcases hds2 : doSend (doRefresh w1) with ⟨r2, w3⟩
          rcases r2 with p2 | e2
          · simp
          · rcases e2 <;> simp
        · simp
      · simp
    case other => simp

theorem sendRequest_refreshes_le_two (auto : Bool) (w : World) :
    (sendRequest auto w).2.1 ≤ 2 := by
  rw [sendRequest.eq_def]
  split
  · exact le_trans (sendBody_refreshes_le_one auto w) (by norm_num)
  · split
    · dsimp only
      split
      · rcases hsb : sendBody auto (doRefresh w) with ⟨o, k, w2⟩
        have hk := sendBody_refreshes_le_one auto (doRefresh w)
        rw [hsb] at hk
        dsimp at hk ⊢
        omega
      · simp
    · simp

theorem sendToPartitionLeader_refreshes_le_five (auto : Bool)
    (leaders : List (Except Cluster.KafkaFailure Int)) (w : World) :
    (sendToPartitionLeader auto leaders w).2 ≤ 5 := by
  rw [sendToPartitionLeader.eq_def]
  rcases hdl : doLookup leaders with ⟨l1, ls1⟩
  rcases l1 with e | id
  · dsimp only
    split
    · rcases hdl2 : doLookup ls1 with ⟨l2, ls2⟩
      rcases l2 with e2 | id2
      · simp
      · rcases hsr : sendRequest auto (doRefresh w) with ⟨o, k, w2⟩
        have hk := sendRequest_refreshes_le_two auto (doRefresh w)
        rw [hsr] at hk
        dsimp at hk ⊢
        omega
    · simp
  · rcases hsr : sendRequest auto w with ⟨o, k, w2⟩
    have hk := sendRequest_refreshes_le_two auto w
    rw [hsr] at hk
    dsimp at hk
    cases o with
    | success p =>
      dsimp only
      omega
    | failDisconnected =>
      dsimp only
      split
      · rcases hdl2 : doLookup ls1 with ⟨l2, ls2⟩
        rcases l2 with e2 | id2
        · dsimp only
          omega
        · rcases hsr2 : sendRequest auto (doRefresh w2) with ⟨o2, k2, w3⟩
          have hk2 := sendRequest_refreshes_le_two auto (doRefresh w2)
          rw [hsr2] at hk2
          dsimp at hk2 ⊢
          omega
      · dsimp only
        omega
    | failOther =>
      dsimp only
      split
      · rcases hdl2 : doLookup ls1 with ⟨l2, ls2⟩
        rcases l2 with e2 | id2
        · dsimp only
          omega
        · rcases hsr2 : sendRequest auto (doRefresh w2) with ⟨o2, k2, w3⟩
          have hk2 := sendRequest_refreshes_le_two auto (doRefresh w2)
          rw [hsr2] at hk2
          dsimp at hk2 ⊢
          omega
      · dsimp only
        omega

end NetworkClient
end Kafka

namespace Kafka

/-- C5 counterexample: one `sendRequest` call that finds no connected
pool entry, refreshes and recurses, then hits a mid-flight
`DisconnectedError`, refreshes and retries again, performs TWO
metadata-refresh-and-retry cycles before surfacing `Disconnected` —
not at most one as the claim states. -/
theorem C5_counterexample :
    NetworkClient.sendRequest true
        ⟨false, [true, true],
         [(.err .disconnected, true), (.err .disconnected, true)]⟩ =
      (.failDisconnected, 2,
        ⟨true, [], []⟩) := by
  rfl

/-- C5 (amended): retries are bounded, never unbounded loops, but a call
can refresh more than once.  Per `sendRequest` call: at most one refresh
for a missing/unconnected pool entry plus at most one for a mid-flight
`DisconnectedError` inside the try-block — at most two in total, and a
second mid-flight failure of the retry is surfaced unretried.
`sendToPartitionLeader` adds at most one topic-scoped refresh around its
two delegated `sendRequest` calls — at most five refreshes in total —
and a leader-lookup failure is retried exactly once: a second lookup
failure is surfaced immediately with exactly one refresh performed. -/
theorem C5_retry_bounds :
    (∀ (auto : Bool) (w : NetworkClient.World),
      (NetworkClient.sendBody auto w).2.1 ≤ 1) ∧
    (∀ (auto : Bool) (w : NetworkClient.World),
      (NetworkClient.sendRequest auto w).2.1 ≤ 2) ∧
    (∀ (auto : Bool) (leaders : List (Except Cluster.KafkaFailure Int))
        (w : NetworkClient.World),
      (NetworkClient.sendToPartitionLeader auto leaders w).2 ≤ 5) ∧
    (∀ (e e2 : Cluster.KafkaFailure) (ls : List (Except Cluster.KafkaFailure Int))
        (w : NetworkClient.World),
      NetworkClient.sendToPartitionLeader true (.error e :: .error e2 :: ls) w =
        (.failLookup e2, 1)) ∧
    (∀ (b1 b2 : Bool) (refreshes : List Bool)
        (rest : List (NetworkClient.SendRes × Bool)) (conn0 : Bool),
      NetworkClient.sendBody true
          ⟨conn0, true :: refreshes,
           (.err .disconnected, b1) :: (.err .disconnected, b2) :: rest⟩ =
        (.failDisconnected, 1, ⟨b2, refreshes, rest⟩)) := by
  refine ⟨NetworkClient.sendBody_refreshes_le_one,
    NetworkClient.sendRequest_refreshes_le_two,
    NetworkClient.sendToPartitionLeader_refreshes_le_five, ?_, ?_⟩
  · intro e e2 ls w
    rfl
  · intro b1 b2 refreshes rest conn0
    rfl

end Kafka
